import Mathlib

set_option maxHeartbeats 1000000

/-!
Verification of the relationship & churn/migration analytics engine of the
`streamlit-hmm-nj-tr-pr` loan dashboard.

The Python source is shallowly embedded:
* a loan record is a structure of optional fields (Python `dict.get` returns
  `None` for missing keys);
* Python `dict`s are insertion-ordered association lists, with in-place value
  update on re-assignment;
* Python `set`s are insertion-ordered duplicate-free lists;
* code that can raise (e.g. `int("abc")`, negative-index `IndexError`,
  `KeyError`) is embedded with `Option`, `none` marking a raised exception.
-/

/-- A loan amount as it arrives from the JSON dataset: an integer or a string. -/
inductive LoanVal where
  | int (n : Int)
  | str (s : String)
  deriving DecidableEq, Repr

/-- A loan record.  Every field is optional: the Python code reads fields with
`record.get(...)`, which yields `None` when the key is absent. -/
structure LoanRec where
  id : Option String := none
  buyerName : Option String := none
  lenderName : Option String := none
  loanAmount : Option LoanVal := none
  recordingDate : Option String := none
  saleDate : Option String := none
  address : Option String := none
  deriving DecidableEq, Repr

/-- Python truthiness on an optional string field: `None` and `""` are falsy.
`truthy o = some s` exactly when the field is present and non-empty. -/
def truthy (o : Option String) : Option String :=
  match o with
  | some s => if s = "" then none else some s
  | none => none

/-- `d.get(k)` on an insertion-ordered Python dict. -/
def pyLookup {K V : Type} [DecidableEq K] (m : List (K × V)) (k : K) : Option V :=
  (m.find? (fun p => decide (p.1 = k))).map (·.2)

/-- `d[k] = v` on an insertion-ordered Python dict: if the key is present the
value is updated in place, otherwise the pair is appended at the end. -/
def pyAssign {K V : Type} [DecidableEq K] : List (K × V) → K → V → List (K × V)
  | [], k, v => [(k, v)]
  | p :: t, k, v => if p.1 = k then (k, v) :: t else p :: pyAssign t k v

/-- The keys of a Python dict, in insertion order. -/
def pyKeys {K V : Type} (m : List (K × V)) : List K := m.map (·.1)

/-- `s.add(x)` on a Python set, modelled as an insertion-ordered
duplicate-free list. -/
def pySetAdd {α : Type} [DecidableEq α] (s : List α) (x : α) : List α :=
  if x ∈ s then s else s ++ [x]

/-- Lexicographic strict comparison of char lists by code point, Python's
`<` on strings. -/
def charsLt : List Char → List Char → Bool
  | [], [] => false
  | [], _ :: _ => true
  | _ :: _, [] => false
  | a :: as, b :: bs =>
      if a.toNat < b.toNat then true
      else if a.toNat = b.toNat then charsLt as bs
      else false

/-- Python's `<` on strings: code-point lexicographic order. -/
def pyStrLt (a b : String) : Bool := charsLt a.data b.data

/-- One step of the scan in `get_borrower_to_last_lender`
(`src/utils/party_churn.py`): skip records with a falsy borrower or date;
store the record if the borrower is new or the date is strictly greater than
the stored record's date. -/
def btlStep (acc : List (String × LoanRec)) (r : LoanRec) : List (String × LoanRec) :=
  match truthy r.buyerName, truthy r.recordingDate with
  | some b, some _ =>
      match pyLookup acc b with
      | none => pyAssign acc b r
      | some m =>
          if pyStrLt (m.recordingDate.getD "") (r.recordingDate.getD "") then
            pyAssign acc b r
          else acc
  | _, _ => acc

/-- The `borrower_to_latest` dict built inside `get_borrower_to_last_lender`
(`src/utils/party_churn.py`). -/
def borrower_to_latest (data : List LoanRec) : List (String × LoanRec) :=
  data.foldl btlStep []

/-- `get_borrower_to_last_lender` (`src/utils/party_churn.py`): for each
borrower, the lender of their most recent loan by `recordingDate`
(`rec.get("lenderName", "")` defaults a missing lender to `""`). -/
def get_borrower_to_last_lender (data : List LoanRec) : List (String × String) :=
  (borrower_to_latest data).map (fun p => (p.1, p.2.lenderName.getD ""))

/-- `get_lender_to_borrowers` (`src/utils/party_churn.py`): for each lender,
the set of all borrowers they have lent to. -/
def get_lender_to_borrowers (data : List LoanRec) : List (String × List String) :=
  data.foldl
    (fun acc r =>
      match truthy r.lenderName, truthy r.buyerName with
      | some l, some b => pyAssign acc l (pySetAdd ((pyLookup acc l).getD []) b)
      | _, _ => acc)
    []

/-- `get_lender_to_lost_borrowers` (`src/utils/party_churn.py`): for each
lender, the borrowers whose last lender is not that lender (skipping lenders
with an empty lost set). -/
def get_lender_to_lost_borrowers (data : List LoanRec) : List (String × List String) :=
  let btl := get_borrower_to_last_lender data
  let ltb := get_lender_to_borrowers data
  ltb.foldl
    (fun acc p =>
      let lost := p.2.filter (fun b => decide (pyLookup btl b ≠ some p.1))
      if lost ≠ [] then pyAssign acc p.1 lost else acc)
    []

/-- `get_lender_to_gained_borrowers` (`src/utils/party_churn.py`): for each
borrower with a truthy last lender, if the borrower appears in the last
lender's borrower set and has ever borrowed from a different lender, add the
borrower to the last lender's gained set. -/
def get_lender_to_gained_borrowers (data : List LoanRec) : List (String × List String) :=
  let btl := get_borrower_to_last_lender data
  let ltb := get_lender_to_borrowers data
  btl.foldl
    (fun acc p =>
      if p.2 = "" then acc
      else
        ltb.foldl
          (fun acc2 q =>
            if q.1 = p.2 ∧ p.1 ∈ q.2 then
              if ltb.any (fun q2 => decide (p.1 ∈ q2.2 ∧ q2.1 ≠ p.2)) then
                pyAssign acc2 p.2 (pySetAdd ((pyLookup acc2 p.2).getD []) p.1)
              else acc2
            else acc2)
          acc)
    []

/-- `get_borrower_fromto_lenders` (`src/utils/party_churn.py`): the
`(churned_borrower, from_lender, to_lender)` triples; a triple is emitted when
the borrower's last lender exists, is truthy, and differs from `from_lender`. -/
def get_borrower_fromto_lenders (data : List LoanRec) :
    List (String × String × String) :=
  let btl := get_borrower_to_last_lender data
  let lost := get_lender_to_lost_borrowers data
  lost.foldl
    (fun acc p =>
      acc ++ p.2.filterMap (fun b =>
        match pyLookup btl b with
        | some t => if t ≠ "" ∧ t ≠ p.1 then some (b, p.1, t) else none
        | none => none))
    []

/-- First-occurrence deduplication, the key order of a Python `Counter`. -/
def dedupFirst {α : Type} [DecidableEq α] (l : List α) : List α :=
  l.foldl pySetAdd []

/-- Multiplicity of an element in a list (the count a Python `Counter` stores). -/
def countEq {α : Type} [DecidableEq α] (l : List α) (a : α) : Nat :=
  (l.filter (fun x => decide (x = a))).length

/-- `Counter(l).items()`: keys in first-encounter order, each with its
multiplicity in `l`. -/
def pyCounterItems {α : Type} [DecidableEq α] (l : List α) : List (α × Nat) :=
  (dedupFirst l).map (fun k => (k, countEq l k))

/-- `get_fromto_lenders_w_counts` (`src/utils/party_churn.py`): count the
`(from_lender, to_lender)` migration pairs with a `Counter`. -/
def get_fromto_lenders_w_counts (data : List LoanRec) :
    List (String × String × Nat) :=
  let pairs := (get_borrower_fromto_lenders data).map (fun t => (t.2.1, t.2.2))
  (pyCounterItems pairs).map (fun p => (p.1.1, p.1.2, p.2))

/-- `record["recordingDate"]` of a record, with Python's `""` default (records
stored by the last-lender scan always carry a truthy date, so the default is
never hit there). -/
def dateOf (r : LoanRec) : String := r.recordingDate.getD ""

/-- The records of borrower `b` that the last-lender scan keeps: truthy
borrower equal to `b` and truthy recording date. -/
def validFor (data : List LoanRec) (b : String) : List LoanRec :=
  data.filter (fun r =>
    decide (truthy r.buyerName = some b) && (truthy r.recordingDate).isSome)

/-- One comparison step of the "keep the latest, first seen wins" scan:
the stored record is replaced only on a strictly greater date. -/
def fmStep (acc : Option LoanRec) (r : LoanRec) : Option LoanRec :=
  match acc with
  | none => some r
  | some m => if pyStrLt (dateOf m) (dateOf r) then some r else some m

/-- The record the last-lender scan retains from a list of records: the first
record carrying the maximal date. -/
def firstMax (l : List LoanRec) : Option LoanRec := l.foldl fmStep none

/-- The nested `lender_to_borrower_counts` dict built inside
`get_lender_to_repeat_borrowers` (`src/utils/metrics.py`). -/
def lender_to_borrower_counts (data : List LoanRec) :
    List (String × List (String × Nat)) :=
  data.foldl
    (fun acc r =>
      match truthy r.lenderName, truthy r.buyerName with
      | some l, some b =>
          let inner := (pyLookup acc l).getD []
          pyAssign acc l (pyAssign inner b ((pyLookup inner b).getD 0 + 1))
      | _, _ => acc)
    []

/-- `get_lender_to_repeat_borrowers` (`src/utils/metrics.py`): for each lender
the borrowers with more than one loan from that lender (lenders with an empty
repeat set are skipped). -/
def get_lender_to_repeat_borrowers (data : List LoanRec) :
    List (String × List String) :=
  (lender_to_borrower_counts data).foldl
    (fun acc p =>
      let rb := (p.2.filter (fun q => decide (1 < q.2))).map (·.1)
      if rb ≠ [] then pyAssign acc p.1 rb else acc)
    []

/-- Value of a digit string, `none` unless non-empty and all decimal digits. -/
def digitsVal (cs : List Char) : Option Nat :=
  if cs ≠ [] ∧ cs.all (fun c => decide (48 ≤ c.toNat ∧ c.toNat ≤ 57)) then
    some (cs.foldl (fun acc c => acc * 10 + (c.toNat - 48)) 0)
  else none

/-- Python `int(s)` on a string: optional sign followed by decimal digits (a
simplified model of CPython's parser); `int("abc")` raises `ValueError`,
giving `none`. -/
def pyIntOfString (s : String) : Option Int :=
  match s.data with
  | '-' :: rest => (digitsVal rest).map (fun n => -(n : Int))
  | '+' :: rest => (digitsVal rest).map (fun n => (n : Int))
  | cs => (digitsVal cs).map (fun n => (n : Int))

/-- Python `int(x)` on a loan-amount value. -/
def pyIntOfVal : LoanVal → Option Int
  | .int n => some n
  | .str s => pyIntOfString s

/-- `get_loan_amounts` (`src/utils/metrics.py`):
`[int(item.get("loanAmount", 0)) for item in prepped_data]`; `none` when a
record's amount does not parse (the `ValueError` escapes). -/
def get_loan_amounts (data : List LoanRec) : Option (List Int) :=
  data.mapM (fun r => pyIntOfVal (r.loanAmount.getD (.int 0)))

/-- `get_avg_loan_amount` (`src/utils/metrics.py`): sum of the parsed amounts
divided by the total record count (0 on empty input); `none` when
`get_loan_amounts` raises. -/
def get_avg_loan_amount (data : List LoanRec) : Option ℚ :=
  (get_loan_amounts data).map (fun amounts =>
    if 0 < data.length then (amounts.sum : ℚ) / (data.length : ℚ) else 0)

/-- `get_total_volume` (`src/utils/metrics.py`). -/
def get_total_volume (data : List LoanRec) : Option Int :=
  (get_loan_amounts data).map (fun amounts => amounts.sum)

/-- `get_borrower_to_lender_volume` (`src/utils/metrics.py`): per-borrower
volume with a fixed lender; here the `int(...)` failure is caught by
`try/except` and coerced to 0. -/
def get_borrower_to_lender_volume (data : List LoanRec) (lender : String) :
    List (String × Int) :=
  data.foldl
    (fun acc r =>
      if r.lenderName = some lender then
        match truthy r.buyerName with
        | some b =>
            let amt := (pyIntOfVal (r.loanAmount.getD (.int 0))).getD 0
            pyAssign acc b ((pyLookup acc b).getD 0 + amt)
        | none => acc
      else acc)
    []

/-- `get_lender_to_num_loans` (`src/utils/metrics.py`). -/
def get_lender_to_num_loans (data : List LoanRec) : List (String × Int) :=
  data.foldl
    (fun acc r =>
      match truthy r.lenderName with
      | some l => pyAssign acc l ((pyLookup acc l).getD 0 + 1)
      | none => acc)
    []

/-- `get_lender_to_volume` (`src/utils/metrics.py`): total loan volume per
lender; `none` when `int(...)` raises (no `try/except` here). -/
def get_lender_to_volume (data : List LoanRec) : Option (List (String × Int)) :=
  data.foldlM
    (fun acc r => do
      let amt ← pyIntOfVal (r.loanAmount.getD (.int 0))
      match truthy r.lenderName with
      | some l => pure (pyAssign acc l ((pyLookup acc l).getD 0 + amt))
      | none => pure acc)
    []

/-- The order Python's stable `sorted(items, key=value, reverse=True)`
realises on enumerated dict items: larger value first, ties broken by the
original (encounter) position. -/
def rankRel (a b : Nat × String × Int) : Prop :=
  b.2.2 < a.2.2 ∨ (a.2.2 = b.2.2 ∧ a.1 ≤ b.1)

instance : DecidableRel rankRel := fun a b => by
  unfold rankRel; infer_instance

instance : IsTotal (Nat × String × Int) rankRel :=
  ⟨fun a b => by unfold rankRel; omega⟩

instance : IsTrans (Nat × String × Int) rankRel :=
  ⟨fun a b c hab hbc => by unfold rankRel at *; omega⟩

/-- Python's stable descending sort-by-value on dict items. -/
def pySortDescByVal (items : List (String × Int)) : List (Nat × String × Int) :=
  (items.enum).insertionSort rankRel

/-- The `top_lender_names` selection shared by the two top-N functions:
sort descending by metric, take the first `topN`, keep the names. -/
def top_lender_names (items : List (String × Int)) (topN : Nat) : List String :=
  (((pySortDescByVal items).take topN).map Prod.snd).map (·.1)

/-- The final membership filter shared by the two top-N functions
(`item.get("lenderName") in top_lender_names`). -/
def filter_by_lender_names (data : List LoanRec) (names : List String) :
    List LoanRec :=
  data.filter (fun r => (r.lenderName.map (fun s => decide (s ∈ names))).getD false)

/-- `get_top_lenders_by_num_loans` (`src/utils/metrics.py`). -/
def get_top_lenders_by_num_loans (data : List LoanRec) (topN : Nat) : List LoanRec :=
  filter_by_lender_names data (top_lender_names (get_lender_to_num_loans data) topN)

/-- `get_top_lenders_by_volume` (`src/utils/metrics.py`); `none` when the
volume aggregation raises. -/
def get_top_lenders_by_volume (data : List LoanRec) (topN : Nat) :
    Option (List LoanRec) :=
  (get_lender_to_volume data).map
    (fun items => filter_by_lender_names data (top_lender_names items topN))

/-- The per-lender body of the lost-borrowers fold: the churned subset of the
lender's borrower set, or `none` when empty (entry skipped). -/
def lostEntry (btl : List (String × String)) (L : String) (bs : List String) :
    Option (List String) :=
  let lo := bs.filter (fun b => decide (pyLookup btl b ≠ some L))
  if lo ≠ [] then some lo else none

/-- The per-lender body of the repeat-borrowers fold: the borrowers with more
than one loan, or `none` when empty (entry skipped). -/
def repeatEntry (inner : List (String × Nat)) : Option (List String) :=
  let rb := (inner.filter (fun q => decide (1 < q.2))).map (·.1)
  if rb ≠ [] then some rb else none

/-- The per-lender contribution to the migration triples: one triple per lost
borrower whose last lender exists, is truthy and differs from the lender. -/
def fromtoEntry (btl : List (String × String)) (L : String) (bs : List String) :
    List (String × String × String) :=
  bs.filterMap (fun b =>
    match pyLookup btl b with
    | some t => if t ≠ "" ∧ t ≠ L then some (b, L, t) else none
    | none => none)

/-- `BIN_EDGE_TO_LABEL` (`src/utils/market_share_stacked_bar.py`). -/
def BIN_EDGE_TO_LABEL : List (Int × String) :=
  [(100000, "$0 - $100K"), (250000, "$100K - $250K"), (500000, "$250K - $500K"),
   (1000000, "$500K - $1M"), (2500000, "$1M - $2.5M"), (5000000, "$2.5M - $5M"),
   (10000000, "$5M - $10M")]

/-- `BIN_EDGE_TO_UNDER_LABEL` (`src/utils/market_share_stacked_bar.py`). -/
def BIN_EDGE_TO_UNDER_LABEL : List (Int × String) :=
  [(100000, "Under $100K"), (250000, "Under $250K"), (500000, "Under $500K"),
   (1000000, "Under $1M")]

/-- `BIN_EDGE_TO_OVER_LABEL` (`src/utils/market_share_stacked_bar.py`). -/
def BIN_EDGE_TO_OVER_LABEL : List (Int × String) :=
  [(250000, "Over $100K"), (500000, "Over $250K"), (1000000, "Over $500K"),
   (2500000, "Over $1M"), (5000000, "Over $2.5M"), (10000000, "Over $5M")]

instance : DecidableRel (fun a b : Int => b ≤ a) := fun a b => Int.decLe b a

instance : IsTotal Int (fun a b : Int => b ≤ a) := ⟨fun a b => le_total b a⟩

instance : IsTrans Int (fun a b : Int => b ≤ a) :=
  ⟨fun _ _ _ hab hbc => le_trans hbc hab⟩

instance : DecidableRel (fun a b : Int × String => a.1 ≤ b.1) :=
  fun a b => Int.decLe a.1 b.1

instance : IsTotal (Int × String) (fun a b : Int × String => a.1 ≤ b.1) :=
  ⟨fun a b => le_total a.1 b.1⟩

instance : IsTrans (Int × String) (fun a b : Int × String => a.1 ≤ b.1) :=
  ⟨fun _ _ _ hab hbc => le_trans hab hbc⟩

/-- Python `sorted` on a list of ints. -/
def sortAsc (l : List Int) : List Int := l.insertionSort (· ≤ ·)

/-- Python `sorted(..., reverse=True)` on a list of ints. -/
def sortDesc (l : List Int) : List Int := l.insertionSort (fun a b => b ≤ a)

/-- Python `sorted` on dict items, which orders by key (keys are distinct). -/
def sortByKey (l : List (Int × String)) : List (Int × String) :=
  l.insertionSort (fun a b => a.1 ≤ b.1)

/-- Python list indexing with negative-index wrap-around; `none` is an
`IndexError`. -/
def pyIdx (l : List Int) (i : Int) : Option Int :=
  let j := if i < 0 then i + l.length else i
  if j < 0 then none else l.get? j.toNat

/-- `_get_min_bin_edge` (`src/utils/market_share_stacked_bar.py`): the lowest
candidate edge with more than `minCount` amounts strictly below it, else the
largest candidate (`sorted_edges[-1]`). -/
def _get_min_bin_edge (amounts : List Int) (binEdges : List Int)
    (minCount : Int) : Option Int :=
  let sorted := sortAsc binEdges
  match sorted.find? (fun e =>
      decide (minCount < ((amounts.filter (fun a => decide (a < e))).length : Int))) with
  | some e => some e
  | none => pyIdx sorted (-1)

/-- `_get_max_bin_edge` (`src/utils/market_share_stacked_bar.py`): scanning
candidates in descending order, at the first index `i` whose edge has more
than `minCount` amounts at/above it, return `sorted_edges[0]` if `i = 1` and
`sorted_edges[i - 1]` otherwise — for `i = 0` the Python index `-1` wraps to
the last (smallest) candidate; the fallback is `sorted_edges[-2]`. -/
def _get_max_bin_edge (amounts : List Int) (binEdges : List Int)
    (minCount : Int) : Option Int :=
  let sorted := sortDesc binEdges
  match sorted.enum.find? (fun p =>
      decide (minCount <
        ((amounts.filter (fun a => decide (p.2 ≤ a))).length : Int))) with
  | some p => if p.1 = 1 then pyIdx sorted 0 else pyIdx sorted ((p.1 : Int) - 1)
  | none => pyIdx sorted (-2)

/-- `get_stacked_bar_edges_labels` (`src/utils/market_share_stacked_bar.py`)
generalised over the candidate edge ladders passed to the two helpers (the
source passes the fixed under/over label dict keys).  The label overrides
index `BIN_EDGE_TO_UNDER_LABEL` / `BIN_EDGE_TO_OVER_LABEL` directly, so a
missing key is a `KeyError` (`none`). -/
def overrideStep (m : List (Int × String)) (e : Int)
    (dict : List (Int × String)) : Option (List (Int × String)) :=
  if (pyLookup m e).isSome then
    (pyLookup dict e).map (fun lbl => pyAssign m e lbl)
  else some m

/-- The body of `get_stacked_bar_edges_labels` generalised over the candidate
edge ladders (continued from `overrideStep` above). -/
def edges_labels_with_candidates (amounts : List Int)
    (underEdges overEdges : List Int) (minCount : Int) :
    Option (List Int × List String) := do
  let minE ← _get_min_bin_edge amounts underEdges minCount
  let maxE ← _get_max_bin_edge amounts overEdges minCount
  let prepped0 := BIN_EDGE_TO_LABEL.filter
    (fun p => decide (minE ≤ p.1 ∧ p.1 ≤ maxE))
  let prepped1 ← overrideStep prepped0 minE BIN_EDGE_TO_UNDER_LABEL
  let prepped2 ← overrideStep prepped1 maxE BIN_EDGE_TO_OVER_LABEL
  let sortedP := sortByKey prepped2
  some ((0 : Int) :: pyKeys sortedP, sortedP.map (·.2))

/-- `get_stacked_bar_edges_labels` applied to the source's fixed candidate
ladders. -/
def get_stacked_bar_edges_labels (amounts : List Int) (requiredItemCount : Int) :
    Option (List Int × List String) :=
  edges_labels_with_candidates amounts (pyKeys BIN_EDGE_TO_UNDER_LABEL)
    (pyKeys BIN_EDGE_TO_OVER_LABEL) requiredItemCount

/-- `pd.cut(..., bins=edges, labels=labels, right=False)` followed by the
per-record bin column of `_get_bar_chart_data`
(`src/views/lender_market_share_page.py`): the label of the first half-open
lower-inclusive interval containing the value, `none` (NaN) if no interval
contains it. -/
def cutAssign (edges : List Int) (labels : List String) (v : Int) :
    Option String :=
  (((edges.zip edges.tail).zip labels).find?
    (fun q => decide (q.1.1 ≤ v ∧ v < q.1.2))).map (·.2)

/-- Modelled from the spec: `constants/css.py` is absent from the source
snapshot; the hex strings are opaque display constants whose exact values no
claim depends on, fixed here as placeholders. -/
def RED_HEX : String := "#FF0000"

/-- Modelled from the spec: placeholder, see `RED_HEX`. -/
def PURPLE_HEX : String := "#800080"

/-- Modelled from the spec: placeholder, see `RED_HEX`. -/
def YELLOW_HEX : String := "#FFFF00"

/-- Modelled from the spec: placeholder, see `RED_HEX`. -/
def GREEN_HEX : String := "#008000"

/-- Modelled from the spec: placeholder, see `RED_HEX`. -/
def GREEN_LIGHT_HEX : String := "#90EE90"

/-- Modelled from the spec: placeholder, see `RED_HEX`. -/
def BLACK_HEX : String := "#000000"

/-- Node style constants of `src/utils/party2loan_timeline_net_graph.py`. -/
def NODE_COLOR_CURRENT_ONE_TIME_BORROWER : String := RED_HEX

/-- See `NODE_COLOR_CURRENT_ONE_TIME_BORROWER`. -/
def NODE_COLOR_CURRENT_REPEAT_BORROWER : String := PURPLE_HEX

/-- See `NODE_COLOR_CURRENT_ONE_TIME_BORROWER`. -/
def NODE_COLOR_LOAN : String := YELLOW_HEX

/-- See `NODE_COLOR_CURRENT_ONE_TIME_BORROWER`. -/
def NODE_COLOR_MONTH : String := GREEN_HEX

/-- `NODE_X_VALUE_CURRENT_REPEAT_BORROWER`
(`src/utils/party2loan_timeline_net_graph.py`). -/
def NODE_X_VALUE_CURRENT_REPEAT_BORROWER : Int := 0

/-- `NODE_X_VALUE_CURRENT_ONE_TIME_BORROWER`. -/
def NODE_X_VALUE_CURRENT_ONE_TIME_BORROWER : Int := 50

/-- `NODE_X_VALUE_MONTH`. -/
def NODE_X_VALUE_MONTH : Int := 400

/-- The party role selecting which record field names the party
(`PARTY_TO_DATASET_KEY` in `src/constants/dataset.py`). -/
inductive Party where
  | borrower
  | lender
  deriving DecidableEq, Repr

/-- `PARTY_TO_DATASET_KEY[party]` applied to a record:
`buyerName` for borrowers, `lenderName` for lenders. -/
def partyDatasetKey : Party → LoanRec → Option String
  | .borrower, r => r.buyerName
  | .lender, r => r.lenderName

/-- The party role as the string used in node ids. -/
def partyStr : Party → String
  | .borrower => "borrower"
  | .lender => "lender"

/-- `party.capitalize()`. -/
def partyCapitalized : Party → String
  | .borrower => "Borrower"
  | .lender => "Lender"

/-- A `streamlit_agraph` node as the layout builder constructs it; fields the
source never passes stay at their `none`/default values. -/
structure GNode where
  id : String
  title : String
  label : Option String := none
  shape : Option String := none
  color : String
  labelColor : String
  size : Option Nat := none
  borderWidth : Nat := 0
  mass : Option ℚ := none
  physics : Option Bool := none
  fixedX : Bool := false
  fixedY : Bool := false
  x : Option Int := none
  y : Option Int := none
  deriving DecidableEq, Repr

/-- A `streamlit_agraph` edge as the layout builder constructs it. -/
structure GEdge where
  source : String
  target : String
  color : String
  width : Nat
  deriving DecidableEq, Repr

/-- Comma-group a reversed digit list in threes (`{:,}` formatting). -/
def commaGroupRev : List Char → Nat → List Char
  | [], _ => []
  | c :: cs, k =>
      if k = 3 then ',' :: c :: commaGroupRev cs 1
      else c :: commaGroupRev cs (k + 1)

/-- `to_currency` (`src/utils/formatting.py`) on an integer amount:
`f"${amount:,.0f}"` (integers convert to float exactly at these magnitudes). -/
def to_currency (n : Int) : String :=
  let grouped := (commaGroupRev (toString n.natAbs).data.reverse 0).reverse
  "$" ++ (if n < 0 then "-" else "") ++ String.mk grouped

/-- The one-time-party spread band of `_get_party_node_x_value`
(`src/utils/party2loan_timeline_net_graph.py`): 75 above 100 unique members,
50 above 20, otherwise 0. -/
def _one_time_spread (uniqueMembers : Nat) : Nat :=
  if uniqueMembers > 100 then 75
  else if uniqueMembers > 20 then 50
  else 0

/-- The repeat-party spread band of `_get_party_node_x_value`: 25 above 10
unique members, otherwise 0. -/
def _repeat_spread (uniqueMembers : Nat) : Nat :=
  if uniqueMembers > 10 then 25 else 0

/-- `_get_scaled_mass` (`src/utils/party2loan_timeline_net_graph.py`). -/
def _get_scaled_mass (uniqueMembers : Nat) : ℚ :=
  if uniqueMembers > 100 then 0.25
  else if uniqueMembers > 50 then 0.5
  else if uniqueMembers > 20 then 0.7
  else 1.0

/-- `_get_y_scaling_factor` (`src/utils/party2loan_timeline_net_graph.py`). -/
def _get_y_scaling_factor (uniqueMembers : Nat) : Nat :=
  if uniqueMembers > 100 then 400
  else if uniqueMembers > 80 then 250
  else if uniqueMembers > 60 then 200
  else if uniqueMembers > 40 then 150
  else if uniqueMembers > 20 then 125
  else 100

/-- A fixed polynomial hash of a string. -/
def strHash (s : String) : Nat :=
  s.data.foldl (fun h c => (h * 31 + c.toNat) % 1000003) 7

/-- Deterministic model of `random.Random(seed).randint(lo, hi)`: CPython
seeds a Mersenne Twister with the string and draws from `[lo, hi]`, a pure
function of `(seed, lo, hi)`; the model reduces a fixed string hash into the
same range, preserving the property the source relies on — the value depends
only on the seed string and the bounds. -/
def rngRandint (seed : String) (lo hi : Int) : Int :=
  lo + (strHash seed : Int) % (hi - lo + 1)

/-- `_get_party_node_x_value` (`src/utils/party2loan_timeline_net_graph.py`):
repeat parties anchor at 0 (spread 25 over 10 members), one-time parties at
50 with the one-time spread band; a positive spread draws a name-seeded
offset in `[base, base + spread]`. -/
def _get_party_node_x_value (partyNumLoans uniqueMembers : Nat)
    (memberName : String) : Int :=
  let bs : Int × Nat :=
    if partyNumLoans > 1 then
      (NODE_X_VALUE_CURRENT_REPEAT_BORROWER, _repeat_spread uniqueMembers)
    else
      (NODE_X_VALUE_CURRENT_ONE_TIME_BORROWER, _one_time_spread uniqueMembers)
  if bs.2 > 0 then rngRandint memberName bs.1 (bs.1 + (bs.2 : Int)) else bs.1

/-- The party-name occurrences `_add_party_num_loans` counts (only `None`
values are dropped; empty strings are counted). -/
def partyNames (data : List LoanRec) (party : Party) : List String :=
  data.filterMap (partyDatasetKey party)

/-- The `{party}_selected_num_loans` value `_add_party_num_loans` attaches to
a record. -/
def partyNumLoans (data : List LoanRec) (party : Party) (r : LoanRec) : Nat :=
  match partyDatasetKey party r with
  | some s => countEq (partyNames data party) s
  | none => 0

/-- `_count_unique_members` (`src/utils/party2loan_timeline_net_graph.py`):
the number of distinct truthy party names. -/
def _count_unique_members (data : List LoanRec) (party : Party) : Nat :=
  (dedupFirst (data.filterMap (fun r => truthy (partyDatasetKey party r)))).length

/-- One record's step of `_create_party_loan_relationships`
(`src/utils/party2loan_timeline_net_graph.py`): a deduplicated party node,
a loan node, and a party→loan edge; `int(datum.get("loanAmount", 0))` may
raise (`none`). -/
def cplStep (data : List LoanRec) (party : Party)
    (st : List GNode × List GEdge × List (String × String)) (r : LoanRec) :
    Option (List GNode × List GEdge × List (String × String)) := do
  let (nodes, edges, memberMap) := st
  let recordId := r.id.getD "None"
  let partyNodeId := partyStr party ++ "_" ++ recordId
  let memberName := (partyDatasetKey party r).getD "N/A"
  let partyNodeTitle := partyCapitalized party ++ ": " ++ memberName
  let numLoans := partyNumLoans data party r
  let unique := _count_unique_members data party
  let color := if numLoans > 1 then NODE_COLOR_CURRENT_REPEAT_BORROWER
    else NODE_COLOR_CURRENT_ONE_TIME_BORROWER
  let xValue := _get_party_node_x_value numLoans unique memberName
  let label := if numLoans > 1 then some memberName else none
  let st2 : List GNode × List (String × String) :=
    if (pyLookup memberMap memberName).isSome then (nodes, memberMap)
    else
      (nodes ++ [{ id := partyNodeId, title := partyNodeTitle, label := label,
                   color := color, labelColor := BLACK_HEX, size := some 20,
                   mass := some (_get_scaled_mass unique),
                   fixedX := true, x := some xValue }],
       pyAssign memberMap memberName partyNodeId)
  let amt ← pyIntOfVal (r.loanAmount.getD (.int 0))
  let saleDate := r.saleDate.getD "N/A"
  let address := r.address.getD "N/A"
  let loanNodeId := "loan_" ++ recordId
  let loanNodeTitle := "Loan Amount: " ++ to_currency amt ++ "\nSale Date: "
    ++ saleDate ++ "\nProperty: " ++ address
  let nodes2 := st2.1 ++ [{ id := loanNodeId, title := loanNodeTitle,
                            color := NODE_COLOR_LOAN, labelColor := BLACK_HEX,
                            size := some 20 }]
  let sourceId := (pyLookup st2.2 memberName).getD ""
  let edges2 := edges ++ [{ source := sourceId, target := loanNodeId,
                            color := GREEN_LIGHT_HEX, width := 5 }]
  some (nodes2, edges2, st2.2)

/-- `_create_party_loan_relationships`
(`src/utils/party2loan_timeline_net_graph.py`). -/
def _create_party_loan_relationships (data : List LoanRec) (party : Party)
    (nodes : List GNode) (edges : List GEdge) :
    Option (List GNode × List GEdge) := do
  let st ← data.foldlM (cplStep data party) (nodes, edges, [])
  some (st.1, st.2.1)

/-- All-digit prefix check and value for a `strptime` field of at most
`maxLen` digits. -/
def parseDigits (cs : List Char) (maxLen : Nat) : Option Nat :=
  if cs ≠ [] ∧ cs.length ≤ maxLen ∧
      cs.all (fun c => decide (48 ≤ c.toNat ∧ c.toNat ≤ 57)) then
    some (cs.foldl (fun acc c => acc * 10 + (c.toNat - 48)) 0)
  else none

/-- Split a char list on a separator character. -/
def splitOnChar (c : Char) : List Char → List (List Char)
  | [] => [[]]
  | x :: xs =>
      match splitOnChar c xs with
      | [] => [[]]
      | g :: gs => if x.toNat = c.toNat then [] :: g :: gs else (x :: g) :: gs

/-- Gregorian leap year. -/
def isLeap (y : Nat) : Bool :=
  y % 4 = 0 && (y % 100 ≠ 0 || y % 400 = 0)

/-- Days in a month. -/
def daysInMonth (y m : Nat) : Nat :=
  if m = 2 then (if isLeap y then 29 else 28)
  else if m = 4 ∨ m = 6 ∨ m = 9 ∨ m = 11 then 30
  else 31

/-- `datetime.strptime(s, "%Y-%m-%d")`: three dash-separated digit groups,
year ≥ 1, month 1–12, calendar-valid day; `none` is a raised `ValueError`. -/
def parseDate (s : String) : Option (Nat × Nat × Nat) :=
  match splitOnChar '-' s.data with
  | [ys, ms, ds] => do
      let y ← parseDigits ys 4
      let m ← parseDigits ms 2
      let d ← parseDigits ds 2
      if 1 ≤ y ∧ 1 ≤ m ∧ m ≤ 12 ∧ 1 ≤ d ∧ d ≤ daysInMonth y m then
        some (y, m, d)
      else none
  | _ => none

/-- Absolute month index of the first of a month (`date(y, m, 1)`). -/
def monthIdx (y m : Nat) : Nat := 12 * y + (m - 1)

/-- `strftime("%b").upper()` month abbreviations. -/
def monthAbbrev (m : Nat) : String :=
  ["JAN", "FEB", "MAR", "APR", "MAY", "JUN", "JUL", "AUG", "SEP", "OCT",
   "NOV", "DEC"].getD (m - 1) ""

/-- `strftime("%y")`: zero-padded two-digit year. -/
def twoDigitYear (y : Nat) : String :=
  let r := y % 100
  (if r < 10 then "0" else "") ++ toString r

/-- The label `_get_date_to_month_node_label` builds, e.g. `DEC '25`. -/
def monthNodeLabel (idx : Nat) : String :=
  monthAbbrev (idx % 12 + 1) ++ " '" ++ twoDigitYear (idx / 12)

/-- `_get_latest_date` (`src/utils/party2loan_timeline_net_graph.py`): the
maximal `saleDate` string, first-of-equals (Python `max`), `None` if none. -/
def _get_latest_date (data : List LoanRec) : Option String :=
  match data.filterMap (fun r => r.saleDate) with
  | [] => none
  | d :: ds => some (ds.foldl (fun a s => if pyStrLt a s then s else a) d)

/-- `_get_last_12_months`: twelve month indices descending from the latest
date, or from `today` when the latest date is falsy (`if not latest_date:`
covers both `None` and the empty string); a truthy but unparsable latest
date raises (`none`). -/
def _get_last_12_months (latest : Option String) (today : Nat) :
    Option (List Nat) :=
  match truthy latest with
  | none => some ((List.range 12).map (fun k => today - k))
  | some s => (parseDate s).map
      (fun ymd => (List.range 12).map (fun k => monthIdx ymd.1 ymd.2.1 - k))

instance : DecidableRel (fun a b : Nat => b ≤ a) := fun a b => Nat.decLe b a

instance : IsTotal Nat (fun a b : Nat => b ≤ a) := ⟨fun a b => Nat.le_total b a⟩

instance : IsTrans Nat (fun a b : Nat => b ≤ a) :=
  ⟨fun _ _ _ h1 h2 => le_trans h2 h1⟩

/-- `sorted(..., reverse=True)` on month indices. -/
def sortDescNat (l : List Nat) : List Nat := l.insertionSort (fun a b => b ≤ a)

/-- `_create_loan_date_relationships`
(`src/utils/party2loan_timeline_net_graph.py`): fixed month-anchor nodes in
reverse chronological order, then loan→month edges for records whose sale
date parses into one of the twelve months (the `try/except` skips the rest);
`today` makes the `date.today()` fallback explicit. -/
def _create_loan_date_relationships (data : List LoanRec) (party : Party)
    (nodes : List GNode) (edges : List GEdge) (today : Nat) :
    Option (List GNode × List GEdge) := do
  let unique := _count_unique_members data party
  let yScale := _get_y_scaling_factor unique
  let last12 ← _get_last_12_months (_get_latest_date data) today
  let dateToLabel := last12.map (fun i => (i, monthNodeLabel i))
  let built := (sortDescNat last12).enum.foldl
    (fun (acc : List GNode × List (Nat × String)) p =>
      match pyLookup dateToLabel p.2 with
      | none => acc
      | some lbl =>
          if lbl = "" then acc
          else
            (acc.1 ++ [{ id := "month_" ++ toString (p.1 + 1), title := lbl,
                         label := some ("  " ++ lbl ++ "  "),
                         shape := some "circle", color := NODE_COLOR_MONTH,
                         labelColor := BLACK_HEX, physics := some false,
                         fixedX := true, fixedY := true,
                         x := some NODE_X_VALUE_MONTH,
                         y := some ((p.1 * yScale : Nat) : Int) }],
             pyAssign acc.2 p.2 ("month_" ++ toString (p.1 + 1))))
    (nodes, [])
  let edges2 := data.foldl
    (fun es r =>
      let recordId := r.id.getD "None"
      match truthy r.saleDate with
      | none => es
      | some sd =>
          match parseDate sd with
          | none => es
          | some ymd =>
              match pyLookup built.2 (monthIdx ymd.1 ymd.2.1) with
              | none => es
              | some mid =>
                  es ++ [{ source := "loan_" ++ recordId, target := mid,
                           color := GREEN_LIGHT_HEX, width := 5 }])
    edges
  some (built.1, edges2)

/-- `get_timeline_network_graph_nodes_edges`
(`src/utils/party2loan_timeline_net_graph.py`). -/
def get_timeline_network_graph_nodes_edges (data : List LoanRec) (party : Party)
    (today : Nat) : Option (List GNode × List GEdge) := do
  let ne1 ← _create_party_loan_relationships data party [] []
  let ne2 ← _create_loan_date_relationships data party ne1.1 ne1.2 today
  some ne2

/-- What the claim asserts of a top-N selection `out` built from the metric
dict `items` over `data`: `out` is the membership filter of the full records
by the selected names; the selected names are `min topN |items|` distinct
lender identities; and every selected lender beats every unselected lender
either strictly on the metric or on encounter order at a tied metric. -/
def topSelectionSpec (data : List LoanRec) (items : List (String × Int))
    (topN : Nat) (out : List LoanRec) : Prop :=
  let names := top_lender_names items topN
  out = data.filter
      (fun r => (r.lenderName.map (fun s => decide (s ∈ names))).getD false) ∧
  names.length = min topN items.length ∧
  names.Nodup ∧
  ∀ l ∈ names, ∀ l', l' ∈ pyKeys items → l' ∉ names →
    (pyLookup items l').getD 0 < (pyLookup items l).getD 0 ∨
      ((pyLookup items l').getD 0 = (pyLookup items l).getD 0 ∧
        (pyKeys items).indexOf l < (pyKeys items).indexOf l')

/-- Scenario B record 1: borrower B1 borrows from L1 (first loan). -/
def recB1 : LoanRec :=
  { buyerName := some "B1", lenderName := some "L1",
    loanAmount := some (.int 100), recordingDate := some "2024-01-01" }

/-- Scenario B record 2: borrower B1 borrows from L1 again (repeat loan). -/
def recB2 : LoanRec :=
  { buyerName := some "B1", lenderName := some "L1",
    loanAmount := some (.int 150), recordingDate := some "2024-03-01" }

/-- Scenario A record 1: borrower B1 borrows 100 from L1 on 2024-01-01. -/
def recA1 : LoanRec :=
  { buyerName := some "B1", lenderName := some "L1",
    loanAmount := some (.int 100), recordingDate := some "2024-01-01" }

/-- Scenario A record 2: borrower B1 borrows 200 from L2 on 2024-06-01. -/
def recA2 : LoanRec :=
  { buyerName := some "B1", lenderName := some "L2",
    loanAmount := some (.int 200), recordingDate := some "2024-06-01" }

/-- A one-record dataset for the timeline layout: id r1, borrower B1 from
lender L1, amount 100, sold 2025-06-10. -/
def recD1 : LoanRec :=
  { id := some "r1", buyerName := some "B1", lenderName := some "L1",
    loanAmount := some (.int 100), saleDate := some "2025-06-10",
    address := some "1 Main St" }

/-- C1: For the two-record input `[(B1,L1,100,2024-01-01), (B1,L2,200,2024-06-01)]`,
the churn pipeline yields: last lender of B1 is L2, the lost-borrowers map sends
L1 to {B1}, the gained-borrowers map sends L2 to {B1}, and the migration-flow
list is exactly `[(L1, L2, 1)]`. -/
theorem scenarioA_churn_pipeline :
    pyLookup (get_borrower_to_last_lender [recA1, recA2]) "B1" = some "L2" ∧
    pyLookup (get_lender_to_lost_borrowers [recA1, recA2]) "L1" = some ["B1"] ∧
    pyLookup (get_lender_to_gained_borrowers [recA1, recA2]) "L2" = some ["B1"] ∧
    get_fromto_lenders_w_counts [recA1, recA2] = [("L1", "L2", 1)] := by
  decide

theorem pyLookup_nil {K V : Type} [DecidableEq K] (k : K) :
    pyLookup ([] : List (K × V)) k = none := rfl

theorem pyLookup_cons {K V : Type} [DecidableEq K] (p : K × V) (t : List (K × V))
    (k : K) : pyLookup (p :: t) k = if p.1 = k then some p.2 else pyLookup t k := by
  by_cases h : p.1 = k <;> simp [pyLookup, List.find?, h]

theorem pyLookup_pyAssign {K V : Type} [DecidableEq K] (m : List (K × V))
    (k k' : K) (v : V) :
    pyLookup (pyAssign m k v) k' = if k' = k then some v else pyLookup m k' := by
  induction m with
  | nil =>
      by_cases h : k' = k
      · simp [pyAssign, pyLookup_cons, h]
      · simp [pyAssign, pyLookup_cons, h, Ne.symm h]
  | cons p t ih =>
      by_cases hp : p.1 = k
      · subst hp
        by_cases hk : k' = p.1
        · simp [pyAssign, pyLookup_cons, hk]
        · simp [pyAssign, pyLookup_cons, hk, Ne.symm hk]
      · by_cases hk2 : p.1 = k'
        · have hkk : ¬k' = k := fun h => hp (hk2.trans h)
          simp [pyAssign, hp, pyLookup_cons, hk2, hkk]
        · simp [pyAssign, hp, pyLookup_cons, hk2, ih]

theorem pyLookup_map_value {K V W : Type} [DecidableEq K] (m : List (K × V))
    (f : V → W) (k : K) :
    pyLookup (m.map (fun p => (p.1, f p.2))) k = (pyLookup m k).map f := by
  induction m with
  | nil => rfl
  | cons p t ih =>
      by_cases h : p.1 = k <;> simp [pyLookup_cons, h, ih]

theorem borrower_to_latest_append (data : List LoanRec) (r : LoanRec) :
    borrower_to_latest (data ++ [r]) = btlStep (borrower_to_latest data) r := by
  simp [borrower_to_latest, List.foldl_append]

theorem validFor_append (data : List LoanRec) (r : LoanRec) (b : String) :
    validFor (data ++ [r]) b =
      validFor data b ++
        (if truthy r.buyerName = some b ∧ (truthy r.recordingDate).isSome
         then [r] else []) := by
  simp only [validFor, List.filter_append, List.filter]
  by_cases h1 : truthy r.buyerName = some b <;>
    cases h2 : truthy r.recordingDate <;> simp [h1, h2]

theorem firstMax_append (l : List LoanRec) (r : LoanRec) :
    firstMax (l ++ [r]) = fmStep (firstMax l) r := by
  simp [firstMax, List.foldl_append]

theorem foldl_fmStep_some (l : List LoanRec) (m : LoanRec) :
    ∃ m', l.foldl fmStep (some m) = some m' := by
  induction l generalizing m with
  | nil => exact ⟨m, rfl⟩
  | cons x t ih =>
      show ∃ m', t.foldl fmStep (fmStep (some m) x) = some m'
      unfold fmStep
      by_cases h : pyStrLt (dateOf m) (dateOf x) <;> simp [h] <;> apply ih

theorem firstMax_isSome (l : List LoanRec) (h : l ≠ []) :
    ∃ m, firstMax l = some m := by
  match l with
  | [] => exact absurd rfl h
  | x :: t => exact foldl_fmStep_some t x

theorem foldl_fmStep_mem (l : List LoanRec) (acc : Option LoanRec) (m : LoanRec)
    (h : l.foldl fmStep acc = some m) : m ∈ l ∨ acc = some m := by
  induction l generalizing acc with
  | nil => exact Or.inr h
  | cons x t ih =>
      rcases ih (fmStep acc x) h with hm | hm
      · exact Or.inl (List.mem_cons_of_mem _ hm)
      · match acc with
        | none =>
            simp [fmStep] at hm
            exact Or.inl (hm ▸ List.mem_cons_self _ _)
        | some m0 =>
            by_cases hc : pyStrLt (dateOf m0) (dateOf x)
            · simp [fmStep, hc] at hm
              exact Or.inl (hm ▸ List.mem_cons_self _ _)
            · simp [fmStep, hc] at hm
              exact Or.inr (congrArg some hm)

theorem firstMax_mem (l : List LoanRec) (m : LoanRec) (h : firstMax l = some m) :
    m ∈ l := by
  rcases foldl_fmStep_mem l none m h with hm | hm
  · exact hm
  · exact absurd hm (by simp)

theorem firstMax_eq_of_first_max (l : List LoanRec) (i : Nat) (ri : LoanRec)
    (hget : l.get? i = some ri)
    (hmax : ∀ rj ∈ l, pyStrLt (dateOf ri) (dateOf rj) = false)
    (hfirst : ∀ j, j < i → ∀ rj, l.get? j = some rj →
      pyStrLt (dateOf rj) (dateOf ri) = true) :
    firstMax l = some ri := by
  induction l using List.reverseRecOn with
  | nil => simp at hget
  | append_singleton xs r ih =>
      by_cases hi : i < xs.length
      · have hget' : xs.get? i = some ri := by
          rw [List.get?_append hi] at hget; exact hget
        have ihm := ih hget'
          (fun rj hrj => hmax rj (by simp [hrj]))
          (fun j hj rj hj2 => hfirst j hj rj
            (by rw [List.get?_append (Nat.lt_trans hj hi)]; exact hj2))
        rw [firstMax_append, ihm]
        have hr := hmax r (by simp)
        simp [fmStep, hr]
      · have hlen : i < xs.length + 1 := by
          have := List.get?_eq_some.mp hget
          simpa using this.1
        have hieq : i = xs.length := by omega
        have hri : ri = r := by
          subst hieq
          rw [List.get?_append_right (le_refl _)] at hget
          simp at hget
          exact hget.symm
        subst hri
        rcases eq_or_ne xs [] with hxs | hxs
        · subst hxs; rfl
        · obtain ⟨m, hm⟩ := firstMax_isSome xs hxs
          obtain ⟨j, hj⟩ := List.get?_of_mem (firstMax_mem xs m hm)
          have hjlt : j < xs.length := by
            have := List.get?_eq_some.mp hj
            exact this.1
          have hlt := hfirst j (by omega) m
            (by rw [List.get?_append hjlt]; exact hj)
          rw [firstMax_append, hm]
          simp [fmStep, hlt]

theorem lookup_borrower_to_latest (data : List LoanRec) (b : String) :
    pyLookup (borrower_to_latest data) b = firstMax (validFor data b) := by
  induction data using List.reverseRecOn with
  | nil => rfl
  | append_singleton xs r ih =>
      rw [borrower_to_latest_append, validFor_append]
      cases hb : truthy r.buyerName with
      | none =>
          simp only [btlStep, hb]
          have : ¬(truthy r.buyerName = some b ∧ (truthy r.recordingDate).isSome) := by
            simp [hb]
          simp [this, ih]
      | some b0 =>
          cases hd : truthy r.recordingDate with
          | none =>
              simp only [btlStep, hb, hd]
              have : ¬(truthy r.buyerName = some b ∧
                  (truthy r.recordingDate).isSome) := by simp [hd]
              simp [this, ih]
          | some d =>
              by_cases hbb : b0 = b
              · subst hbb
                have hval : (if some b0 = some b0 ∧ (some d).isSome = true
                    then [r] else []) = [r] := by simp
                rw [hval, firstMax_append, ← ih]
                simp only [btlStep, hb, hd]
                cases hl : pyLookup (borrower_to_latest xs) b0 with
                | none => simp [fmStep, pyLookup_pyAssign]
                | some m =>
                    by_cases hc : pyStrLt (m.recordingDate.getD "")
                        (r.recordingDate.getD "")
                    · simp [hc, fmStep, dateOf, pyLookup_pyAssign]
                    · simp [hc, fmStep, dateOf, hl]
              · have hval : (if some b0 = some b ∧ (some d).isSome = true
                    then [r] else []) = ([] : List LoanRec) := by simp [hbb]
                rw [hval, List.append_nil]
                simp only [btlStep, hb, hd]
                have hne : ¬b = b0 := fun h => hbb h.symm
                cases hl : pyLookup (borrower_to_latest xs) b0 with
                | none => simp [pyLookup_pyAssign, hne, ih]
                | some m =>
                    by_cases hc : pyStrLt (m.recordingDate.getD "")
                        (r.recordingDate.getD "")
                    · simp [hc, pyLookup_pyAssign, hne, ih]
                    · simp [hc, ih]

/-- C10: the last-lender computation breaks date ties first-seen-wins: if the
`i`-th valid record of borrower `b` has a date no record of `b` strictly
exceeds, and every earlier valid record of `b` has a strictly smaller date,
then `b` is mapped to that record's lender (the stored record is replaced only
on a strictly greater date). -/
theorem last_lender_tie_break_first_seen (data : List LoanRec) (b : String)
    (i : Nat) (ri : LoanRec)
    (hget : (validFor data b).get? i = some ri)
    (hmax : ∀ rj ∈ validFor data b, pyStrLt (dateOf ri) (dateOf rj) = false)
    (hfirst : ∀ j, j < i → ∀ rj, (validFor data b).get? j = some rj →
      pyStrLt (dateOf rj) (dateOf ri) = true) :
    pyLookup (get_borrower_to_last_lender data) b = some (ri.lenderName.getD "") := by
  have hmap : pyLookup (get_borrower_to_last_lender data) b
      = (pyLookup (borrower_to_latest data) b).map (fun v => v.lenderName.getD "") :=
    pyLookup_map_value (borrower_to_latest data) (fun v => v.lenderName.getD "") b
  rw [hmap, lookup_borrower_to_latest,
    firstMax_eq_of_first_max _ i ri hget hmax hfirst]
  rfl

/-- Witness for C10 at a concrete tie: two records of B1 share the maximal
date 2024-05-01; the borrower maps to the lender of the first one. -/
theorem last_lender_tie_break_first_seen_witness :
    pyLookup
      (get_borrower_to_last_lender
        [{ buyerName := some "B1", lenderName := some "L1",
           recordingDate := some "2024-05-01" },
         { buyerName := some "B1", lenderName := some "L2",
           recordingDate := some "2024-05-01" }]) "B1" = some "L1" :=
  last_lender_tie_break_first_seen _ "B1" 0
    { buyerName := some "B1", lenderName := some "L1",
      recordingDate := some "2024-05-01" }
    (by decide) (by decide) (by decide)

theorem mem_pySetAdd {α : Type} [DecidableEq α] (s : List α) (x y : α) :
    y ∈ pySetAdd s x ↔ y = x ∨ y ∈ s := by
  by_cases h : x ∈ s
  · simp only [pySetAdd, if_pos h]
    constructor
    · exact Or.inr
    · rintro (rfl | hy)
      · exact h
      · exact hy
  · simp [pySetAdd, if_neg h, or_comm]

theorem nodup_pySetAdd {α : Type} [DecidableEq α] (s : List α) (x : α)
    (h : s.Nodup) : (pySetAdd s x).Nodup := by
  by_cases hx : x ∈ s
  · simpa [pySetAdd, hx] using h
  · rw [pySetAdd, if_neg hx, List.nodup_append]
    refine ⟨h, List.nodup_singleton x, fun b hb hbx => ?_⟩
    rw [List.mem_singleton] at hbx
    exact hx (hbx ▸ hb)

theorem mem_pyKeys_pyAssign {K V : Type} [DecidableEq K] (m : List (K × V))
    (k a : K) (v : V) :
    a ∈ pyKeys (pyAssign m k v) ↔ a = k ∨ a ∈ pyKeys m := by
  induction m with
  | nil => simp [pyAssign, pyKeys]
  | cons p t ih =>
      by_cases hp : p.1 = k
      · subst hp
        have hred : pyAssign (p :: t) p.1 v = (p.1, v) :: t := by simp [pyAssign]
        rw [hred]
        simp only [pyKeys, List.map_cons, List.mem_cons]
        tauto
      · simp only [pyAssign, if_neg hp, pyKeys, List.map_cons, List.mem_cons]
        rw [show List.map Prod.fst (pyAssign t k v) = pyKeys (pyAssign t k v) from rfl,
          ih]
        tauto

theorem nodup_pyKeys_pyAssign {K V : Type} [DecidableEq K] (m : List (K × V))
    (k : K) (v : V) (h : (pyKeys m).Nodup) : (pyKeys (pyAssign m k v)).Nodup := by
  induction m with
  | nil => simp [pyAssign, pyKeys]
  | cons p t ih =>
      simp only [pyKeys, List.map_cons, List.nodup_cons] at h
      by_cases hp : p.1 = k
      · subst hp
        have hred : pyAssign (p :: t) p.1 v = (p.1, v) :: t := by simp [pyAssign]
        rw [hred]
        simp only [pyKeys, List.map_cons, List.nodup_cons]
        exact h
      · simp only [pyAssign, if_neg hp, pyKeys, List.map_cons, List.nodup_cons]
        constructor
        · intro hmem
          rw [show List.map Prod.fst (pyAssign t k v) = pyKeys (pyAssign t k v) from
            rfl, mem_pyKeys_pyAssign] at hmem
          rcases hmem with rfl | hmem
          · exact hp rfl
          · exact h.1 hmem
        · exact ih h.2

theorem pyAssign_not_mem {K V : Type} [DecidableEq K] (m : List (K × V))
    (k : K) (v : V) (h : k ∉ pyKeys m) : pyAssign m k v = m ++ [(k, v)] := by
  induction m with
  | nil => rfl
  | cons p t ih =>
      simp only [pyKeys, List.map_cons, List.mem_cons] at h
      push_neg at h
      simp only [pyAssign, if_neg (fun hp : p.1 = k => h.1 hp.symm), List.cons_append,
        List.cons.injEq, true_and]
      exact ih h.2

theorem pyLookup_eq_none_of_not_mem {K V : Type} [DecidableEq K]
    (m : List (K × V)) (k : K) (h : k ∉ pyKeys m) : pyLookup m k = none := by
  induction m with
  | nil => rfl
  | cons p t ih =>
      simp only [pyKeys, List.map_cons, List.mem_cons] at h
      push_neg at h
      rw [pyLookup_cons, if_neg (fun hp : p.1 = k => h.1 hp.symm)]
      exact ih h.2

theorem pyLookup_of_mem_nodup {K V : Type} [DecidableEq K] (m : List (K × V))
    (k : K) (v : V) (hnd : (pyKeys m).Nodup) (hmem : (k, v) ∈ m) :
    pyLookup m k = some v := by
  induction m with
  | nil => simp at hmem
  | cons p t ih =>
      simp only [pyKeys, List.map_cons, List.nodup_cons] at hnd
      rcases List.mem_cons.mp hmem with rfl | hmem
      · rw [pyLookup_cons, if_pos rfl]
      · have hk : p.1 ≠ k := by
          intro hp
          exact hnd.1 (hp ▸ (List.mem_map.mpr ⟨(k, v), hmem, rfl⟩))
        rw [pyLookup_cons, if_neg hk]
        exact ih hnd.2 hmem

theorem pyKeys_append {K V : Type} (m1 m2 : List (K × V)) :
    pyKeys (m1 ++ m2) = pyKeys m1 ++ pyKeys m2 := List.map_append _ _ _

theorem get_lender_to_borrowers_append (data : List LoanRec) (r : LoanRec) :
    get_lender_to_borrowers (data ++ [r]) =
      match truthy r.lenderName, truthy r.buyerName with
      | some l, some b =>
          pyAssign (get_lender_to_borrowers data) l
            (pySetAdd ((pyLookup (get_lender_to_borrowers data) l).getD []) b)
      | _, _ => get_lender_to_borrowers data := by
  simp [get_lender_to_borrowers, List.foldl_append]

theorem lender_to_borrower_counts_append (data : List LoanRec) (r : LoanRec) :
    lender_to_borrower_counts (data ++ [r]) =
      match truthy r.lenderName, truthy r.buyerName with
      | some l, some b =>
          let inner := (pyLookup (lender_to_borrower_counts data) l).getD []
          pyAssign (lender_to_borrower_counts data) l
            (pyAssign inner b ((pyLookup inner b).getD 0 + 1))
      | _, _ => lender_to_borrower_counts data := by
  simp [lender_to_borrower_counts, List.foldl_append]

theorem nodup_pyKeys_ltb (data : List LoanRec) :
    (pyKeys (get_lender_to_borrowers data)).Nodup := by
  induction data using List.reverseRecOn with
  | nil => simp [get_lender_to_borrowers, pyKeys]
  | append_singleton xs r ih =>
      rw [get_lender_to_borrowers_append]
      split
      · exact nodup_pyKeys_pyAssign _ _ _ ih
      · exact ih

theorem nodup_pyKeys_counts (data : List LoanRec) :
    (pyKeys (lender_to_borrower_counts data)).Nodup := by
  induction data using List.reverseRecOn with
  | nil => simp [lender_to_borrower_counts, pyKeys]
  | append_singleton xs r ih =>
      rw [lender_to_borrower_counts_append]
      split
      · exact nodup_pyKeys_pyAssign _ _ _ ih
      · exact ih

theorem match_option_ite {α β : Type} (c : Prop) [Decidable c] (v : α)
    (f : α → β) (b : β) :
    (match (if c then some v else none : Option α) with
     | some w => f w
     | none => b) = if c then f v else b := by
  by_cases h : c <;> simp [h]

theorem foldl_assign_filterMap {V W : Type}
    (m : List (String × V)) (g : String → V → Option W)
    (acc : List (String × W)) (hnd : (pyKeys m).Nodup)
    (hdisj : ∀ a ∈ pyKeys m, a ∉ pyKeys acc) :
    m.foldl (fun acc2 p => (g p.1 p.2).elim acc2 (pyAssign acc2 p.1)) acc
      = acc ++ m.filterMap (fun p => (g p.1 p.2).map (fun w => (p.1, w))) := by
  induction m generalizing acc with
  | nil => simp
  | cons p t ih =>
      simp only [pyKeys, List.map_cons, List.nodup_cons] at hnd
      have hpacc : p.1 ∉ pyKeys acc := hdisj p.1 (by simp [pyKeys])
      cases hg : g p.1 p.2 with
      | none =>
          simp only [List.foldl_cons, List.filterMap_cons, hg, Option.elim_none]
          exact ih acc hnd.2
            (fun a ha => hdisj a (by simp only [pyKeys, List.map_cons]; right; exact ha))
      | some w =>
          simp only [List.foldl_cons, List.filterMap_cons, hg, Option.map_some',
            Option.elim_some]
          rw [pyAssign_not_mem _ _ _ hpacc]
          have hdisj2 : ∀ a ∈ pyKeys t, a ∉ pyKeys (acc ++ [(p.1, w)]) := by
            intro a ha
            rw [pyKeys_append]
            simp only [List.mem_append, pyKeys, List.map_cons, List.map_nil,
              List.mem_singleton, not_or]
            refine ⟨hdisj a (by simp only [pyKeys, List.map_cons]; right; exact ha), ?_⟩
            exact fun hak => hnd.1 (hak ▸ ha)
          rw [ih (acc ++ [(p.1, w)]) hnd.2 hdisj2, List.append_assoc]
          simp

theorem pyKeys_filterMap_subset {V W : Type}
    (m : List (String × V)) (g : String → V → Option W) (a : String)
    (ha : a ∈ pyKeys (m.filterMap (fun p => (g p.1 p.2).map (fun w => (p.1, w))))) :
    a ∈ pyKeys m := by
  simp only [pyKeys, List.mem_map, List.mem_filterMap] at ha ⊢
  obtain ⟨q, ⟨p, hp, hq⟩, hqa⟩ := ha
  cases hg : g p.1 p.2 with
  | none => rw [hg] at hq; simp at hq
  | some w =>
      rw [hg] at hq
      simp only [Option.map_some', Option.some.injEq] at hq
      exact ⟨p, hp, by rw [← hq] at hqa; exact hqa⟩

theorem pyLookup_filterMap {V W : Type}
    (m : List (String × V)) (g : String → V → Option W) (k : String)
    (hnd : (pyKeys m).Nodup) :
    pyLookup (m.filterMap (fun p => (g p.1 p.2).map (fun w => (p.1, w)))) k
      = (pyLookup m k).bind (g k) := by
  induction m with
  | nil => rfl
  | cons p t ih =>
      simp only [pyKeys, List.map_cons, List.nodup_cons] at hnd
      cases hg : g p.1 p.2 with
      | some w =>
          simp only [List.filterMap_cons, hg, Option.map_some']
          rw [pyLookup_cons, pyLookup_cons]
          by_cases hk : p.1 = k
          · subst hk; simp [hg]
          · simp [hk, ih hnd.2]
      | none =>
          simp only [List.filterMap_cons, hg]
          rw [pyLookup_cons]
          by_cases hk : p.1 = k
          · subst hk
            have hnone : pyLookup
                (t.filterMap (fun p => (g p.1 p.2).map (fun w => (p.1, w)))) p.1
                = none := by
              apply pyLookup_eq_none_of_not_mem
              exact fun hmem => hnd.1 (pyKeys_filterMap_subset t g p.1 hmem)
            simp [hnone, hg]
          · simp [hk, ih hnd.2]

theorem lost_eq_filterMap (data : List LoanRec) :
    get_lender_to_lost_borrowers data =
      (get_lender_to_borrowers data).filterMap
        (fun p => (lostEntry (get_borrower_to_last_lender data) p.1 p.2).map
          (fun w => (p.1, w))) := by
  simp only [get_lender_to_lost_borrowers]
  rw [List.foldl_ext _
    (fun acc2 p => (lostEntry (get_borrower_to_last_lender data) p.1 p.2).elim
      acc2 (pyAssign acc2 p.1))
    []
    (by
      intro acc p _
      simp only [lostEntry]
      by_cases h : List.filter
          (fun b => decide (pyLookup (get_borrower_to_last_lender data) b ≠ some p.1))
          p.2 ≠ []
      · rw [if_pos h, if_pos h]; rfl
      · rw [if_neg h, if_neg h]; rfl)]
  have h := foldl_assign_filterMap (get_lender_to_borrowers data)
    (fun L bs => lostEntry (get_borrower_to_last_lender data) L bs) []
    (nodup_pyKeys_ltb data) (by simp [pyKeys])
  simpa using h

theorem pyLookup_lost (data : List LoanRec) (L : String) :
    pyLookup (get_lender_to_lost_borrowers data) L
      = (pyLookup (get_lender_to_borrowers data) L).bind
          (lostEntry (get_borrower_to_last_lender data) L) := by
  rw [lost_eq_filterMap]
  exact pyLookup_filterMap _ _ _ (nodup_pyKeys_ltb data)

theorem repeat_eq_filterMap (data : List LoanRec) :
    get_lender_to_repeat_borrowers data =
      (lender_to_borrower_counts data).filterMap
        (fun p => (repeatEntry p.2).map (fun w => (p.1, w))) := by
  simp only [get_lender_to_repeat_borrowers]
  rw [List.foldl_ext _
    (fun acc2 p => (repeatEntry p.2).elim acc2 (pyAssign acc2 p.1))
    []
    (by
      intro acc p _
      simp only [repeatEntry]
      by_cases h : (p.2.filter (fun q => decide (1 < q.2))).map (·.1) ≠ []
      · rw [if_pos h, if_pos h]; rfl
      · rw [if_neg h, if_neg h]; rfl)]
  have h := foldl_assign_filterMap (lender_to_borrower_counts data)
    (fun _ inner => repeatEntry inner) []
    (nodup_pyKeys_counts data) (by simp [pyKeys])
  simpa using h

theorem pyLookup_repeat (data : List LoanRec) (L : String) :
    pyLookup (get_lender_to_repeat_borrowers data) L
      = (pyLookup (lender_to_borrower_counts data) L).bind
          (fun inner => repeatEntry inner) := by
  rw [repeat_eq_filterMap]
  exact pyLookup_filterMap _ (fun _ inner => repeatEntry inner) _
    (nodup_pyKeys_counts data)

theorem get_lender_to_borrowers_append_skip (data : List LoanRec) (r : LoanRec)
    (h : truthy r.lenderName = none ∨ truthy r.buyerName = none) :
    get_lender_to_borrowers (data ++ [r]) = get_lender_to_borrowers data := by
  rcases h with h | h
  · simp [get_lender_to_borrowers, List.foldl_append, h]
  · cases h1 : truthy r.lenderName <;>
      simp [get_lender_to_borrowers, List.foldl_append, h1, h]

theorem get_lender_to_borrowers_append_upd (data : List LoanRec) (r : LoanRec)
    (l b : String) (h1 : truthy r.lenderName = some l)
    (h2 : truthy r.buyerName = some b) :
    get_lender_to_borrowers (data ++ [r]) =
      pyAssign (get_lender_to_borrowers data) l
        (pySetAdd ((pyLookup (get_lender_to_borrowers data) l).getD []) b) := by
  simp [get_lender_to_borrowers, List.foldl_append, h1, h2]

theorem lender_to_borrower_counts_append_skip (data : List LoanRec) (r : LoanRec)
    (h : truthy r.lenderName = none ∨ truthy r.buyerName = none) :
    lender_to_borrower_counts (data ++ [r]) = lender_to_borrower_counts data := by
  rcases h with h | h
  · simp [lender_to_borrower_counts, List.foldl_append, h]
  · cases h1 : truthy r.lenderName <;>
      simp [lender_to_borrower_counts, List.foldl_append, h1, h]

theorem lender_to_borrower_counts_append_upd (data : List LoanRec) (r : LoanRec)
    (l b : String) (h1 : truthy r.lenderName = some l)
    (h2 : truthy r.buyerName = some b) :
    lender_to_borrower_counts (data ++ [r]) =
      pyAssign (lender_to_borrower_counts data) l
        (pyAssign ((pyLookup (lender_to_borrower_counts data) l).getD []) b
          ((pyLookup ((pyLookup (lender_to_borrower_counts data) l).getD []) b).getD 0
            + 1)) := by
  simp [lender_to_borrower_counts, List.foldl_append, h1, h2]

theorem counts_mem_ltb (data : List LoanRec) (L b : String)
    (h : b ∈ pyKeys ((pyLookup (lender_to_borrower_counts data) L).getD [])) :
    b ∈ (pyLookup (get_lender_to_borrowers data) L).getD [] := by
  induction data using List.reverseRecOn with
  | nil => simp [lender_to_borrower_counts, pyLookup, pyKeys] at h
  | append_singleton xs r ih =>
      cases h1 : truthy r.lenderName with
      | none =>
          rw [lender_to_borrower_counts_append_skip _ _ (Or.inl h1)] at h
          rw [get_lender_to_borrowers_append_skip _ _ (Or.inl h1)]
          exact ih h
      | some l =>
          cases h2 : truthy r.buyerName with
          | none =>
              rw [lender_to_borrower_counts_append_skip _ _ (Or.inr h2)] at h
              rw [get_lender_to_borrowers_append_skip _ _ (Or.inr h2)]
              exact ih h
          | some b0 =>
              rw [lender_to_borrower_counts_append_upd _ _ l b0 h1 h2] at h
              rw [get_lender_to_borrowers_append_upd _ _ l b0 h1 h2]
              by_cases hL : L = l
              · subst hL
                rw [pyLookup_pyAssign] at h
                rw [pyLookup_pyAssign]
                simp only [eq_self_iff_true, if_true, Option.getD_some] at h ⊢
                rw [mem_pyKeys_pyAssign] at h
                rw [mem_pySetAdd]
                rcases h with rfl | h
                · exact Or.inl rfl
                · exact Or.inr (ih h)
              · rw [pyLookup_pyAssign] at h
                rw [pyLookup_pyAssign]
                simp only [if_neg hL] at h ⊢
                exact ih h

/-- C3: for every record list and every lender L, the lost-borrower set of L
is a subset of L's borrower set, and the repeat-borrower set of L is a subset
of L's borrower set (absent keys read as the empty set). -/
theorem lost_and_repeat_subset_lender_sets (data : List LoanRec) (L b : String) :
    (b ∈ (pyLookup (get_lender_to_lost_borrowers data) L).getD [] →
      b ∈ (pyLookup (get_lender_to_borrowers data) L).getD []) ∧
    (b ∈ (pyLookup (get_lender_to_repeat_borrowers data) L).getD [] →
      b ∈ (pyLookup (get_lender_to_borrowers data) L).getD []) := by
  constructor
  · intro hb
    rw [pyLookup_lost] at hb
    cases hl : pyLookup (get_lender_to_borrowers data) L with
    | none => rw [hl] at hb; simp at hb
    | some bs =>
        rw [hl] at hb
        simp only [Option.some_bind] at hb
        rw [lostEntry] at hb
        by_cases h : bs.filter
            (fun x => decide (pyLookup (get_borrower_to_last_lender data) x ≠ some L))
            ≠ []
        · rw [if_pos h] at hb
          simp only [Option.getD_some] at hb
          simp only [Option.getD_some]
          exact (List.mem_filter.mp hb).1
        · rw [if_neg h] at hb
          simp at hb
  · intro hb
    rw [pyLookup_repeat] at hb
    cases hl : pyLookup (lender_to_borrower_counts data) L with
    | none => rw [hl] at hb; simp at hb
    | some inner =>
        rw [hl] at hb
        simp only [Option.some_bind] at hb
        rw [repeatEntry] at hb
        by_cases h : (inner.filter (fun q => decide (1 < q.2))).map (·.1) ≠ []
        · rw [if_pos h] at hb
          simp only [Option.getD_some] at hb
          apply counts_mem_ltb data L b
          rw [hl]
          simp only [Option.getD_some]
          simp only [List.mem_map, List.mem_filter] at hb
          obtain ⟨q, ⟨hq, _⟩, hqb⟩ := hb
          simp only [pyKeys, List.mem_map]
          exact ⟨q, hq, hqb⟩
        · rw [if_neg h] at hb
          simp at hb

/-- Witness for C3: B1 is lost by L1 in Scenario A hence in L1's borrower
set; B1 is a repeat borrower of L1 in Scenario B hence in L1's borrower set. -/
theorem lost_and_repeat_subset_lender_sets_witness :
    "B1" ∈ (pyLookup (get_lender_to_borrowers [recA1, recA2]) "L1").getD [] ∧
    "B1" ∈ (pyLookup (get_lender_to_borrowers [recB1, recB2]) "L1").getD [] :=
  ⟨(lost_and_repeat_subset_lender_sets [recA1, recA2] "L1" "B1").1 (by decide),
   (lost_and_repeat_subset_lender_sets [recB1, recB2] "L1" "B1").2 (by decide)⟩

theorem foldl_append_flatMap {α β : Type} (l : List α) (f : α → List β)
    (acc : List β) :
    l.foldl (fun a p => a ++ f p) acc = acc ++ l.flatMap f := by
  induction l generalizing acc with
  | nil => simp
  | cons x t ih => simp [ih, List.flatMap_cons]

theorem fromto_eq_flatMap (data : List LoanRec) :
    get_borrower_fromto_lenders data =
      (get_lender_to_lost_borrowers data).flatMap
        (fun p => fromtoEntry (get_borrower_to_last_lender data) p.1 p.2) := by
  simp only [get_borrower_fromto_lenders]
  rw [List.foldl_ext _
    (fun acc p => acc ++ fromtoEntry (get_borrower_to_last_lender data) p.1 p.2) []
    (by intro acc p _; congr 1)]
  have h := foldl_append_flatMap (get_lender_to_lost_borrowers data)
    (fun p => fromtoEntry (get_borrower_to_last_lender data) p.1 p.2) []
  simpa using h

theorem mem_dedupFirst {α : Type} [DecidableEq α] (l : List α) (a : α) :
    a ∈ dedupFirst l ↔ a ∈ l := by
  induction l using List.reverseRecOn with
  | nil => simp [dedupFirst]
  | append_singleton xs x ih =>
      rw [dedupFirst, List.foldl_append]
      simp only [List.foldl_cons, List.foldl_nil]
      rw [show List.foldl pySetAdd [] xs = dedupFirst xs from rfl, mem_pySetAdd]
      simp [ih, or_comm]

theorem nodup_dedupFirst {α : Type} [DecidableEq α] (l : List α) :
    (dedupFirst l).Nodup := by
  induction l using List.reverseRecOn with
  | nil => simp [dedupFirst]
  | append_singleton xs x ih =>
      rw [dedupFirst, List.foldl_append]
      simp only [List.foldl_cons, List.foldl_nil]
      exact nodup_pySetAdd _ _ ih

theorem dedupFirst_append_single {α : Type} [DecidableEq α] (l : List α) (x : α) :
    dedupFirst (l ++ [x]) = pySetAdd (dedupFirst l) x := by
  rw [dedupFirst, List.foldl_append]
  rfl

theorem countEq_append_single {α : Type} [DecidableEq α] (l : List α) (x k : α) :
    countEq (l ++ [x]) k = countEq l k + (if k = x then 1 else 0) := by
  by_cases h : x = k
  · subst h
    simp [countEq, List.filter_append]
  · have hk : ¬k = x := fun h2 => h h2.symm
    simp [countEq, List.filter_append, h, hk]

theorem countEq_eq_zero {α : Type} [DecidableEq α] (l : List α) (x : α)
    (h : x ∉ l) : countEq l x = 0 := by
  simp only [countEq, List.length_eq_zero, List.filter_eq_nil_iff]
  intro a ha
  simp only [decide_eq_true_eq]
  exact fun hax => h (hax ▸ ha)

theorem sum_map_add {α : Type} (l : List α) (f g : α → Nat) :
    (l.map (fun k => f k + g k)).sum = (l.map f).sum + (l.map g).sum := by
  induction l with
  | nil => rfl
  | cons x t ih => simp [ih]; omega

theorem sum_map_ite_mem {α : Type} [DecidableEq α] (l : List α) (x : α)
    (hnd : l.Nodup) :
    (l.map (fun k => if k = x then 1 else 0)).sum = if x ∈ l then 1 else 0 := by
  induction l with
  | nil => rfl
  | cons y t ih =>
      simp only [List.nodup_cons] at hnd
      by_cases hy : y = x
      · subst hy
        simp only [List.map_cons, if_pos rfl, List.sum_cons, List.mem_cons, true_or,
          if_true]
        have : (t.map (fun k => if k = y then 1 else 0)).sum = 0 := by
          rw [ih hnd.2, if_neg hnd.1]
        omega
      · simp only [List.map_cons, if_neg hy, List.sum_cons, List.mem_cons]
        rw [ih hnd.2]
        have : ¬x = y := fun h => hy h.symm
        simp [this]

theorem sum_counts_dedup_filter {α : Type} [DecidableEq α] (l : List α)
    (q : α → Bool) :
    (((dedupFirst l).filter q).map (fun k => countEq l k)).sum
      = (l.filter q).length := by
  induction l using List.reverseRecOn with
  | nil => rfl
  | append_singleton xs x ih =>
      rw [dedupFirst_append_single, List.filter_append]
      by_cases hx : x ∈ dedupFirst xs
      · rw [pySetAdd, if_pos hx]
        have hmap : ((dedupFirst xs).filter q).map (fun k => countEq (xs ++ [x]) k)
            = ((dedupFirst xs).filter q).map
                (fun k => countEq xs k + (if k = x then 1 else 0)) :=
          List.map_congr_left (fun a _ => countEq_append_single xs x a)
        rw [hmap, sum_map_add, ih, sum_map_ite_mem _ _
          ((nodup_dedupFirst xs).filter q)]
        have hqx : x ∈ (dedupFirst xs).filter q ↔ (q x = true) := by
          rw [List.mem_filter]
          exact ⟨fun h => h.2, fun h => ⟨hx, h⟩⟩
        by_cases hq : q x = true
        · simp [hq, hqx.mpr hq]
        · rw [if_neg (fun hmem => hq (hqx.mp hmem))]
          simp [hq]
      · rw [pySetAdd, if_neg hx]
        have hxl : x ∉ xs := fun h => hx ((mem_dedupFirst xs x).mpr h)
        rw [List.filter_append, List.map_append, List.sum_append]
        have hmap : ((dedupFirst xs).filter q).map (fun k => countEq (xs ++ [x]) k)
            = ((dedupFirst xs).filter q).map (fun k => countEq xs k) := by
          apply List.map_congr_left
          intro a ha
          have hax : a ≠ x := by
            intro h
            exact hx (h ▸ (List.mem_filter.mp ha).1)
          rw [countEq_append_single, if_neg hax]
          exact Nat.add_zero _
        rw [hmap, ih]
        have hcx : countEq (xs ++ [x]) x = 1 := by
          rw [countEq_append_single, countEq_eq_zero xs x hxl, if_pos rfl]
        by_cases hq : q x = true
        · simp [hq, hcx]
        · simp [hq]

theorem filter_flatMap {α β : Type} (l : List α) (f : α → List β) (p : β → Bool) :
    (l.flatMap f).filter p = l.flatMap (fun x => (f x).filter p) := by
  induction l with
  | nil => rfl
  | cons x t ih => simp [List.flatMap_cons, List.filter_append, ih]

theorem flatMap_eq_nil_of {α β : Type} (l : List α) (f : α → List β)
    (h : ∀ x ∈ l, f x = []) : l.flatMap f = [] := by
  induction l with
  | nil => rfl
  | cons x t ih =>
      rw [List.flatMap_cons, h x (List.mem_cons_self x t), List.nil_append]
      exact ih (fun y hy => h y (List.mem_cons_of_mem x hy))

theorem length_filterMap_of_isSome {α β : Type} (l : List α) (f : α → Option β)
    (h : ∀ x ∈ l, (f x).isSome) : (l.filterMap f).length = l.length := by
  induction l with
  | nil => rfl
  | cons x t ih =>
      cases hf : f x with
      | none =>
          have := h x (List.mem_cons_self x t)
          rw [hf] at this
          simp at this
      | some y =>
          have hrec := ih (fun z hz => h z (List.mem_cons_of_mem x hz))
          simp [List.filterMap_cons, hf, hrec]

theorem pyKeys_filterMap_sublist {V W : Type}
    (m : List (String × V)) (g : String → V → Option W) :
    List.Sublist
      (pyKeys (m.filterMap (fun p => (g p.1 p.2).map (fun w => (p.1, w)))))
      (pyKeys m) := by
  induction m with
  | nil => exact List.Sublist.refl _
  | cons p t ih =>
      cases hg : g p.1 p.2 with
      | none =>
          simp only [List.filterMap_cons, hg, pyKeys, List.map_cons]
          exact ih.cons p.1
      | some w =>
          simp only [List.filterMap_cons, hg, Option.map_some', pyKeys,
            List.map_cons]
          exact ih.cons₂ p.1

theorem nodup_pyKeys_lost (data : List LoanRec) :
    (pyKeys (get_lender_to_lost_borrowers data)).Nodup := by
  rw [lost_eq_filterMap]
  exact List.Nodup.sublist
    (pyKeys_filterMap_sublist (get_lender_to_borrowers data)
      (fun L bs => lostEntry (get_borrower_to_last_lender data) L bs))
    (nodup_pyKeys_ltb data)

theorem length_flatMap_single {V β : Type} (m : List (String × V))
    (F : String × V → List β) (L : String) (hnd : (pyKeys m).Nodup)
    (hzero : ∀ p ∈ m, p.1 ≠ L → F p = []) :
    (m.flatMap F).length =
      (match pyLookup m L with
       | some v => (F (L, v)).length
       | none => 0) := by
  induction m with
  | nil => rfl
  | cons p t ih =>
      obtain ⟨k, v⟩ := p
      simp only [pyKeys, List.map_cons, List.nodup_cons] at hnd
      rw [List.flatMap_cons, List.length_append, pyLookup_cons]
      by_cases hp : k = L
      · subst hp
        rw [if_pos rfl]
        have ht : t.flatMap F = [] := by
          apply flatMap_eq_nil_of
          intro x hx
          by_cases hxk : x.1 = k
          · exact absurd (hxk ▸ List.mem_map_of_mem (·.1) hx) hnd.1
          · exact hzero x (List.mem_cons_of_mem _ hx) hxk
        rw [ht]
        rfl
      · rw [if_neg hp]
        have h0 : F (k, v) = [] :=
          hzero (k, v) (List.mem_cons_self _ _) hp
        rw [h0]
        simp only [List.length_nil, Nat.zero_add]
        exact ih hnd.2 (fun x hx => hzero x (List.mem_cons_of_mem _ hx))

theorem mem_fromtoEntry_key (btl : List (String × String)) (K : String)
    (bs : List String) (x : String × String × String)
    (hx : x ∈ fromtoEntry btl K bs) : x.2.1 = K := by
  rw [fromtoEntry] at hx
  obtain ⟨b, _, hb⟩ := List.mem_filterMap.mp hx
  cases hl : pyLookup btl b with
  | none => rw [hl] at hb; simp at hb
  | some t =>
      rw [hl] at hb
      have hb2 : (if t ≠ "" ∧ t ≠ K then some (b, K, t) else none) = some x := hb
      by_cases hc : t ≠ "" ∧ t ≠ K
      · rw [if_pos hc] at hb2
        cases hb2
        rfl
      · rw [if_neg hc] at hb2
        simp at hb2

theorem lost_mem_not_last (data : List LoanRec) (L b : String)
    (hb : b ∈ (pyLookup (get_lender_to_lost_borrowers data) L).getD []) :
    pyLookup (get_borrower_to_last_lender data) b ≠ some L := by
  rw [pyLookup_lost] at hb
  cases hl : pyLookup (get_lender_to_borrowers data) L with
  | none => rw [hl] at hb; simp at hb
  | some bs =>
      rw [hl] at hb
      simp only [Option.some_bind] at hb
      rw [lostEntry] at hb
      by_cases h : bs.filter
          (fun x => decide (pyLookup (get_borrower_to_last_lender data) x ≠ some L))
          ≠ []
      · rw [if_pos h] at hb
        simp only [Option.getD_some] at hb
        have := (List.mem_filter.mp hb).2
        simpa using this
      · rw [if_neg h] at hb
        simp at hb

theorem sum_counter_filter {α : Type} [DecidableEq α] (l : List α) (q : α → Bool) :
    (((pyCounterItems l).filter (fun p => q p.1)).map (fun p => p.2)).sum
      = (l.filter q).length := by
  rw [pyCounterItems, List.filter_map, List.map_map]
  have h2 : ((fun p : α × Nat => p.2) ∘ fun k => (k, countEq l k))
      = fun k => countEq l k := rfl
  have h3 : ((fun p : α × Nat => q p.1) ∘ fun k => (k, countEq l k)) = q := rfl
  rw [h2, h3]
  exact sum_counts_dedup_filter l q

/-- C2: flow conservation: for every record list and lender L, if every
borrower in L's lost set has a resolvable last lender (a non-empty entry in
the borrower-to-last-lender map), then the sum of the counts of the
migration-flow triples with `from = L` equals the size of L's lost set. -/
theorem migration_flow_conservation (data : List LoanRec) (L : String)
    (hres : ∀ b ∈ (pyLookup (get_lender_to_lost_borrowers data) L).getD [],
      ∃ t, pyLookup (get_borrower_to_last_lender data) b = some t ∧ t ≠ "") :
    (((get_fromto_lenders_w_counts data).filter (fun tr => decide (tr.1 = L))).map
        (fun tr => tr.2.2)).sum
      = ((pyLookup (get_lender_to_lost_borrowers data) L).getD []).length := by
  have hcnt :
      (((get_fromto_lenders_w_counts data).filter (fun tr => decide (tr.1 = L))).map
          (fun tr => tr.2.2)).sum
        = (((get_borrower_fromto_lenders data).map (fun t => (t.2.1, t.2.2))).filter
            (fun pr => decide (pr.1 = L))).length := by
    simp only [get_fromto_lenders_w_counts]
    rw [List.filter_map, List.map_map]
    have e1 : ((fun tr : String × String × Nat => decide (tr.1 = L)) ∘
        (fun p : (String × String) × Nat => (p.1.1, p.1.2, p.2)))
        = fun p : (String × String) × Nat => decide (p.1.1 = L) := rfl
    have e2 : ((fun tr : String × String × Nat => tr.2.2) ∘
        (fun p : (String × String) × Nat => (p.1.1, p.1.2, p.2)))
        = fun p : (String × String) × Nat => p.2 := rfl
    rw [e1, e2]
    exact sum_counter_filter _ (fun k : String × String => decide (k.1 = L))
  rw [hcnt, fromto_eq_flatMap, List.filter_map, List.length_map]
  have e3 : ((fun pr : String × String => decide (pr.1 = L)) ∘
      (fun t : String × String × String => (t.2.1, t.2.2)))
      = fun t : String × String × String => decide (t.2.1 = L) := rfl
  rw [e3, filter_flatMap]
  rw [length_flatMap_single _ _ L (nodup_pyKeys_lost data)
    (by
      intro p hp hpL
      rw [List.filter_eq_nil_iff]
      intro x hx
      rw [mem_fromtoEntry_key (get_borrower_to_last_lender data) p.1 p.2 x hx]
      simpa using hpL)]
  cases hl : pyLookup (get_lender_to_lost_borrowers data) L with
  | none => simp
  | some lostL =>
      simp only [Option.getD_some]
      have hall : (fromtoEntry (get_borrower_to_last_lender data) L lostL).filter
          (fun t => decide (t.2.1 = L))
          = fromtoEntry (get_borrower_to_last_lender data) L lostL := by
        rw [List.filter_eq_self]
        intro x hx
        rw [mem_fromtoEntry_key (get_borrower_to_last_lender data) L lostL x hx]
        simp
      rw [hall, fromtoEntry]
      apply length_filterMap_of_isSome
      intro b hb
      have hbmem : b ∈ (pyLookup (get_lender_to_lost_borrowers data) L).getD [] := by
        rw [hl]; simpa using hb
      obtain ⟨t, htb, hne⟩ := hres b hbmem
      have htL : pyLookup (get_borrower_to_last_lender data) b ≠ some L :=
        lost_mem_not_last data L b hbmem
      have hc : t ≠ "" ∧ t ≠ L := ⟨hne, fun h => htL (h ▸ htb)⟩
      simp [htb, hc]

/-- Witness for C2 at Scenario A: L1's single lost borrower B1 resolves to
L2, and the flow total out of L1 is 1. -/
theorem migration_flow_conservation_witness :
    (((get_fromto_lenders_w_counts [recA1, recA2]).filter
        (fun tr => decide (tr.1 = "L1"))).map (fun tr => tr.2.2)).sum
      = ((pyLookup (get_lender_to_lost_borrowers [recA1, recA2]) "L1").getD
          []).length :=
  migration_flow_conservation [recA1, recA2] "L1" (by decide)

/-- Counterexample for C4: with the claim's literal candidate edges
`{100000, 1000000}` (minimum population 0), the max-edge scan fires at index 0
and Python's `sorted_edges[i - 1]` wraps to the smallest candidate 100000, so
the over-label lookup raises `KeyError` and no edges/labels are produced at
all — in particular none under which 5,000,000 lands in an "over" bin. -/
theorem scenarioC_literal_candidates_fail :
    edges_labels_with_candidates [50000, 150000, 5000000] [100000, 1000000]
      [100000, 1000000] 0 = none := by decide

/-- C4 (amended): binning `[50000, 150000, 5000000]` with minimum population 0
and the source's actual candidate ladders (under: the `BIN_EDGE_TO_UNDER_LABEL`
keys, over: the `BIN_EDGE_TO_OVER_LABEL` keys) produces edges/labels under
which 5,000,000 is assigned to the "Over $5M" extreme bin and 50,000 to the
"Under $100K" extreme bin. -/
theorem scenarioC_with_source_ladders :
    get_stacked_bar_edges_labels [50000, 150000, 5000000] 0
      = some ([0, 100000, 250000, 500000, 1000000, 2500000, 5000000, 10000000],
          ["Under $100K", "$100K - $250K", "$250K - $500K", "$500K - $1M",
           "$1M - $2.5M", "$2.5M - $5M", "Over $5M"]) ∧
    cutAssign [0, 100000, 250000, 500000, 1000000, 2500000, 5000000, 10000000]
      ["Under $100K", "$100K - $250K", "$250K - $500K", "$500K - $1M",
       "$1M - $2.5M", "$2.5M - $5M", "Over $5M"] 5000000 = some "Over $5M" ∧
    cutAssign [0, 100000, 250000, 500000, 1000000, 2500000, 5000000, 10000000]
      ["Under $100K", "$100K - $250K", "$250K - $500K", "$500K - $1M",
       "$1M - $2.5M", "$2.5M - $5M", "Over $5M"] 50000 = some "Under $100K" := by
  refine ⟨by decide, by decide, by decide⟩

/-- Counterexample for C5: on the amounts `[50000, 150000, 5000000, 10000000]`
(minimum population 0) the derived edges stop at 250000 — the max-edge scan
fires at index 0 and wraps to the smallest over-candidate — so the valid
amounts 5,000,000 and 10,000,000 in the very data the bins were derived from
are assigned to no bin at all. -/
theorem bin_coverage_counterexample :
    get_stacked_bar_edges_labels [50000, 150000, 5000000, 10000000] 0
      = some ([0, 100000, 250000], ["Under $100K", "Over $100K"]) ∧
    cutAssign [0, 100000, 250000] ["Under $100K", "Over $100K"] 5000000
      = none := by
  refine ⟨by decide, by decide⟩

theorem pyLookup_isSome_mem {K V : Type} [DecidableEq K] (m : List (K × V))
    (k : K) (h : (pyLookup m k).isSome) : k ∈ pyKeys m := by
  induction m with
  | nil => simp [pyLookup] at h
  | cons p t ih =>
      rw [pyLookup_cons] at h
      by_cases hp : p.1 = k
      · simp [pyKeys, hp.symm]
      · rw [if_neg hp] at h
        simp only [pyKeys, List.map_cons, List.mem_cons]
        exact Or.inr (ih h)

theorem pyKeys_pyAssign_of_mem {K V : Type} [DecidableEq K] (m : List (K × V))
    (k : K) (v : V) (h : k ∈ pyKeys m) : pyKeys (pyAssign m k v) = pyKeys m := by
  induction m with
  | nil => simp [pyKeys] at h
  | cons p t ih =>
      by_cases hp : p.1 = k
      · subst hp
        have hred : pyAssign (p :: t) p.1 v = (p.1, v) :: t := by simp [pyAssign]
        rw [hred]
        rfl
      · simp only [pyKeys, List.map_cons, List.mem_cons] at h
        rcases h with h | h
        · exact absurd h.symm hp
        · simp only [pyAssign, if_neg hp, pyKeys, List.map_cons]
          rw [show List.map Prod.fst (pyAssign t k v) = pyKeys (pyAssign t k v)
            from rfl, ih h]
          rfl

theorem pyKeys_filter_keypred {K V : Type} (m : List (K × V)) (q : K → Bool) :
    pyKeys (m.filter (fun p => q p.1)) = (pyKeys m).filter q := by
  induction m with
  | nil => rfl
  | cons p t ih =>
      by_cases hq : q p.1
      · simp [pyKeys, List.filter_cons, hq] at ih ⊢
        exact ih
      · simp [pyKeys, List.filter_cons, hq] at ih ⊢
        exact ih

theorem pairwise_lt_getD (l : List Int) (hp : l.Pairwise (· < ·)) (i j : Nat)
    (hij : i < j) (hj : j < l.length) : l.getD i 0 < l.getD j 0 := by
  have hi : i < l.length := Nat.lt_trans hij hj
  rw [List.getD_eq_getElem l 0 hi, List.getD_eq_getElem l 0 hj]
  have := List.pairwise_iff_get.mp hp ⟨i, hi⟩ ⟨j, hj⟩ hij
  simpa using this

theorem cutAssign_exists_unique (labels : List String) (edges : List Int)
    (v : Int) (hp : edges.Pairwise (· < ·))
    (hlen : edges.length = labels.length + 1)
    (hlo : edges.getD 0 0 ≤ v) (hhi : v < edges.getD (edges.length - 1) 0) :
    ∃ i, i < labels.length ∧ edges.getD i 0 ≤ v ∧ v < edges.getD (i + 1) 0 ∧
      cutAssign edges labels v = some (labels.getD i "") ∧
      ∀ j, j < labels.length → edges.getD j 0 ≤ v → v < edges.getD (j + 1) 0 →
        j = i := by
  induction labels generalizing edges with
  | nil =>
      match edges, hlen with
      | [e], _ =>
          simp only [List.getD_cons_zero, List.length_singleton] at hlo hhi
          exact absurd hhi (not_lt.mpr hlo)
  | cons l0 ltl ih =>
      match edges, hlen with
      | e0 :: e1 :: rest, hlen =>
          have hlen2 : rest.length = ltl.length := by
            simpa using hlen
          have hlo0 : e0 ≤ v := hlo
          by_cases hv : v < e1
          · refine ⟨0, Nat.succ_pos _, by exact hlo0, by exact hv, ?_, ?_⟩
            · simp only [cutAssign]
              rw [show (e0 :: e1 :: rest).zip (e0 :: e1 :: rest).tail
                  = (e0, e1) :: (e1 :: rest).zip rest from rfl]
              rw [show ((e0, e1) :: (e1 :: rest).zip rest).zip (l0 :: ltl)
                  = ((e0, e1), l0) :: ((e1 :: rest).zip rest).zip ltl from rfl]
              rw [List.find?_cons_of_pos _ (by simp [hlo0, hv])]
              rfl
            · intro j hj hj1 hj2
              by_contra hj0
              have hj1' : 1 ≤ j := Nat.one_le_iff_ne_zero.mpr hj0
              have : e1 ≤ (e0 :: e1 :: rest).getD j 0 := by
                rcases Nat.eq_or_lt_of_le hj1' with h1 | h1
                · rw [← h1]; rfl
                · exact le_of_lt (pairwise_lt_getD _ hp 1 j h1 (by
                    simp only [List.length_cons]
                    simp only [List.length_cons] at hj
                    omega))
              exact absurd (lt_of_le_of_lt (le_trans this hj1) hv) (lt_irrefl e1)
          · have he1 : e1 ≤ v := le_of_not_lt hv
            have hhi' : v < (e1 :: rest).getD ((e1 :: rest).length - 1) 0 := by
              have : (e0 :: e1 :: rest).getD ((e0 :: e1 :: rest).length - 1) 0
                  = (e1 :: rest).getD ((e1 :: rest).length - 1) 0 := by
                simp only [List.length_cons]
                rw [show rest.length + 1 + 1 - 1 = (rest.length + 1 - 1) + 1 by
                  omega, List.getD_cons_succ]
              rw [← this]
              exact hhi
            obtain ⟨i', hi1, hi2, hi3, hi4, hi5⟩ := ih (e1 :: rest) hp.of_cons
              (by simpa using hlen2) he1 hhi'
            refine ⟨i' + 1, by simp only [List.length_cons]; omega, ?_, ?_, ?_, ?_⟩
            · rw [List.getD_cons_succ]; exact hi2
            · rw [List.getD_cons_succ]; exact hi3
            · simp only [cutAssign] at hi4 ⊢
              rw [show (e0 :: e1 :: rest).zip (e0 :: e1 :: rest).tail
                  = (e0, e1) :: (e1 :: rest).zip rest from rfl]
              rw [show ((e0, e1) :: (e1 :: rest).zip rest).zip (l0 :: ltl)
                  = ((e0, e1), l0) :: ((e1 :: rest).zip rest).zip ltl from rfl]
              rw [List.find?_cons_of_neg _ (by simp [hv])]
              rw [show (e1 :: rest).zip ((e1 :: rest).tail) = (e1 :: rest).zip rest
                from rfl] at hi4
              rw [hi4]
              rw [List.getD_cons_succ]
            · intro j hj hj1 hj2
              cases j with
              | zero =>
                  rw [List.getD_cons_zero] at hj1
                  rw [show (0 : Nat) + 1 = 1 from rfl] at hj2
                  exact absurd hj2 hv
              | succ j' =>
                  rw [List.getD_cons_succ] at hj1
                  rw [List.getD_cons_succ] at hj2
                  have := hi5 j'
                    (by simp only [List.length_cons] at hj; omega) hj1 hj2
                  omega

theorem override_keys (m : List (Int × String)) (e : Int)
    (dict : List (Int × String)) (out : List (Int × String))
    (h : overrideStep m e dict = some out) :
    pyKeys out = pyKeys m := by
  rw [overrideStep] at h
  by_cases hc : (pyLookup m e).isSome
  · rw [if_pos hc] at h
    cases hd : pyLookup dict e with
    | none => rw [hd] at h; simp at h
    | some lbl =>
        rw [hd] at h
        simp only [Option.map_some', Option.some.injEq] at h
        rw [← h]
        exact pyKeys_pyAssign_of_mem m e lbl (pyLookup_isSome_mem m e hc)
  · rw [if_neg hc] at h
    simp only [Option.some.injEq] at h
    rw [h]

theorem edges_labels_shape (amounts : List Int) (uE oE : List Int)
    (minCount : Int) (edges : List Int) (labels : List String)
    (h : edges_labels_with_candidates amounts uE oE minCount
      = some (edges, labels)) :
    edges.Pairwise (· < ·) ∧ edges.length = labels.length + 1 := by
  rw [edges_labels_with_candidates] at h
  rw [Option.bind_eq_bind, Option.bind_eq_some] at h
  obtain ⟨minE, _, h⟩ := h
  rw [Option.bind_eq_some] at h
  obtain ⟨maxE, _, h⟩ := h
  simp only [Option.bind_eq_bind] at h
  rw [Option.bind_eq_some] at h
  obtain ⟨prepped1, hs1, h⟩ := h
  rw [Option.bind_eq_some] at h
  obtain ⟨prepped2, hs2, h⟩ := h
  simp only [Option.some.injEq, Prod.mk.injEq] at h
  obtain ⟨hE, hL⟩ := h
  have hkeys1 : pyKeys prepped1 =
      pyKeys (BIN_EDGE_TO_LABEL.filter
        (fun p => decide (minE ≤ p.1 ∧ p.1 ≤ maxE))) :=
    override_keys _ _ _ _ hs1
  have hkeys2 : pyKeys prepped2 = pyKeys prepped1 :=
    override_keys _ _ _ _ hs2
  have hkeysf : pyKeys prepped2 =
      (pyKeys BIN_EDGE_TO_LABEL).filter
        (fun k => decide (minE ≤ k ∧ k ≤ maxE)) := by
    rw [hkeys2, hkeys1]
    exact pyKeys_filter_keypred BIN_EDGE_TO_LABEL
      (fun k => decide (minE ≤ k ∧ k ≤ maxE))
  have hnodup2 : (pyKeys prepped2).Nodup := by
    rw [hkeysf]
    exact List.Nodup.filter _ (by decide)
  have hpos2 : ∀ x ∈ pyKeys prepped2, (0 : Int) < x := by
    intro x hx
    rw [hkeysf] at hx
    have hxb : x ∈ pyKeys BIN_EDGE_TO_LABEL := (List.mem_filter.mp hx).1
    have hall : ∀ y ∈ pyKeys BIN_EDGE_TO_LABEL, (0 : Int) < y := by decide
    exact hall x hxb
  have hperm : List.Perm (sortByKey prepped2) prepped2 :=
    List.perm_insertionSort _ _
  have hkp : List.Perm (pyKeys (sortByKey prepped2)) (pyKeys prepped2) :=
    hperm.map _
  have hsorted : List.Sorted (fun a b : Int × String => a.1 ≤ b.1)
      (sortByKey prepped2) := List.sorted_insertionSort _ _
  have hkeysorted : (pyKeys (sortByKey prepped2)).Pairwise (· ≤ ·) :=
    List.pairwise_map.mpr hsorted
  have hkeynodup : (pyKeys (sortByKey prepped2)).Nodup :=
    hkp.nodup_iff.mpr hnodup2
  have hkeystrict : (pyKeys (sortByKey prepped2)).Pairwise (· < ·) :=
    List.Sorted.lt_of_le hkeysorted hkeynodup
  constructor
  · rw [← hE]
    rw [List.pairwise_cons]
    constructor
    · intro k hk
      exact hpos2 k (hkp.mem_iff.mp hk)
    · exact hkeystrict
  · rw [← hE, ← hL]
    simp [pyKeys]

/-- C5 (amended): for every record-amount list and derived (edges, labels)
pair, every value inside the covered range `[edges.head, edges.last)` is
assigned to exactly one bin label: the half-open lower-inclusive bins
partition that range with no gaps or overlaps.  (Values at or above the top
edge — see `bin_coverage_counterexample` — receive no bin.) -/
theorem stacked_bar_bin_partition (amounts : List Int) (minCount : Int)
    (edges : List Int) (labels : List String) (v : Int)
    (hderive : get_stacked_bar_edges_labels amounts minCount
      = some (edges, labels))
    (hlo : edges.getD 0 0 ≤ v) (hhi : v < edges.getD (edges.length - 1) 0) :
    ∃ i, i < labels.length ∧ edges.getD i 0 ≤ v ∧ v < edges.getD (i + 1) 0 ∧
      cutAssign edges labels v = some (labels.getD i "") ∧
      ∀ j, j < labels.length → edges.getD j 0 ≤ v → v < edges.getD (j + 1) 0 →
        j = i := by
  obtain ⟨hp, hlen⟩ := edges_labels_shape amounts
    (pyKeys BIN_EDGE_TO_UNDER_LABEL) (pyKeys BIN_EDGE_TO_OVER_LABEL) minCount
    edges labels hderive
  exact cutAssign_exists_unique labels edges v hp hlen hlo hhi

/-- Witness for C5 at Scenario C's data: the value 150000 lies in the covered
range of the derived edges and gets exactly one bin. -/
theorem stacked_bar_bin_partition_witness :
    ∃ i, i < (["Under $100K", "$100K - $250K", "$250K - $500K", "$500K - $1M",
        "$1M - $2.5M", "$2.5M - $5M", "Over $5M"] : List String).length ∧
      ([0, 100000, 250000, 500000, 1000000, 2500000, 5000000,
        10000000] : List Int).getD i 0 ≤ 150000 ∧
      (150000 : Int) < ([0, 100000, 250000, 500000, 1000000, 2500000, 5000000,
        10000000] : List Int).getD (i + 1) 0 ∧
      cutAssign [0, 100000, 250000, 500000, 1000000, 2500000, 5000000, 10000000]
        ["Under $100K", "$100K - $250K", "$250K - $500K", "$500K - $1M",
         "$1M - $2.5M", "$2.5M - $5M", "Over $5M"] 150000
        = some ((["Under $100K", "$100K - $250K", "$250K - $500K", "$500K - $1M",
            "$1M - $2.5M", "$2.5M - $5M", "Over $5M"] : List String).getD i "") ∧
      ∀ j, j < (["Under $100K", "$100K - $250K", "$250K - $500K", "$500K - $1M",
          "$1M - $2.5M", "$2.5M - $5M", "Over $5M"] : List String).length →
        ([0, 100000, 250000, 500000, 1000000, 2500000, 5000000,
          10000000] : List Int).getD j 0 ≤ 150000 →
        (150000 : Int) < ([0, 100000, 250000, 500000, 1000000, 2500000, 5000000,
          10000000] : List Int).getD (j + 1) 0 → j = i :=
  stacked_bar_bin_partition [50000, 150000, 5000000] 0 _ _ 150000 (by decide)
    (by decide) (by decide)

/-- C6 evaluated at the failing input: a record with `loanAmount = "abc"`
makes `get_loan_amounts` — and with it `get_avg_loan_amount` and
`get_total_volume` — raise `ValueError` (`none`) instead of excluding the
record; the claimed defensive behaviours live only in other functions, e.g.
`get_borrower_to_lender_volume` coerces the same record's amount to 0. -/
theorem avg_loan_amount_raises_on_abc :
    get_loan_amounts [{ loanAmount := some (.str "abc") }] = none ∧
    get_avg_loan_amount
      [{ buyerName := some "B1", lenderName := some "L1",
         loanAmount := some (.str "abc") },
       { buyerName := some "B2", lenderName := some "L1",
         loanAmount := some (.int 100) }] = none ∧
    get_total_volume
      [{ buyerName := some "B1", lenderName := some "L1",
         loanAmount := some (.str "abc") }] = none ∧
    get_borrower_to_lender_volume
      [{ buyerName := some "B1", lenderName := some "L1",
         loanAmount := some (.str "abc") }] "L1" = [("B1", 0)] := by
  refine ⟨by decide, ?_, by decide, by decide⟩
  rw [get_avg_loan_amount, show get_loan_amounts
    [{ buyerName := some "B1", lenderName := some "L1",
       loanAmount := some (.str "abc") },
     { buyerName := some "B2", lenderName := some "L1",
       loanAmount := some (.int 100) }] = none from by decide]
  rfl

theorem indexOf_eq_of_get? {α : Type} [DecidableEq α] (l : List α) (i : Nat)
    (a : α) (hnd : l.Nodup) (h : l.get? i = some a) : l.indexOf a = i := by
  obtain ⟨hi, hget⟩ := List.get?_eq_some.mp h
  rw [← hget]
  exact List.get_indexOf hnd ⟨i, hi⟩

theorem nodup_pyKeys_numloans (data : List LoanRec) :
    (pyKeys (get_lender_to_num_loans data)).Nodup := by
  induction data using List.reverseRecOn with
  | nil => simp [get_lender_to_num_loans, pyKeys]
  | append_singleton xs r ih =>
      rw [show get_lender_to_num_loans (xs ++ [r])
          = (match truthy r.lenderName with
             | some l => pyAssign (get_lender_to_num_loans xs) l
                 ((pyLookup (get_lender_to_num_loans xs) l).getD 0 + 1)
             | none => get_lender_to_num_loans xs) from by
        simp [get_lender_to_num_loans, List.foldl_append]]
      split
      · exact nodup_pyKeys_pyAssign _ _ _ ih
      · exact ih

theorem volume_keys_nodup (data : List LoanRec) (items : List (String × Int))
    (h : get_lender_to_volume data = some items) : (pyKeys items).Nodup := by
  induction data using List.reverseRecOn generalizing items with
  | nil =>
      simp only [get_lender_to_volume, List.foldlM_nil, pure,
        Option.some.injEq] at h
      rw [← h]
      simp [pyKeys]
  | append_singleton xs r ih =>
      rw [get_lender_to_volume, List.foldlM_append] at h
      rw [show List.foldlM _ ([] : List (String × Int)) xs
          = get_lender_to_volume xs from rfl] at h
      rw [Option.bind_eq_bind, Option.bind_eq_some] at h
      obtain ⟨acc, hacc, h⟩ := h
      have hnd := ih acc hacc
      simp only [List.foldlM_cons, List.foldlM_nil] at h
      rw [Option.bind_eq_bind, Option.bind_eq_some] at h
      obtain ⟨st, hstep, h⟩ := h
      simp only [pure, Option.some.injEq] at h
      rw [Option.bind_eq_bind, Option.bind_eq_some] at hstep
      obtain ⟨amt, _, hstep⟩ := hstep
      cases htr : truthy r.lenderName with
      | some l =>
          rw [htr] at hstep
          simp only [pure, Option.some.injEq] at hstep
          rw [← h, ← hstep]
          exact nodup_pyKeys_pyAssign _ _ _ hnd
      | none =>
          rw [htr] at hstep
          simp only [pure, Option.some.injEq] at hstep
          rw [← h, ← hstep]
          exact hnd

theorem topSelection_correct (data : List LoanRec) (items : List (String × Int))
    (topN : Nat) (hnd : (pyKeys items).Nodup) :
    topSelectionSpec data items topN
      (filter_by_lender_names data (top_lender_names items topN)) := by
  simp only [topSelectionSpec]
  have hperm : List.Perm (pySortDescByVal items) items.enum :=
    List.perm_insertionSort _ _
  have hsorted : List.Pairwise rankRel (pySortDescByVal items) :=
    List.sorted_insertionSort _ _
  have hKeq : (pySortDescByVal items).map (fun e => e.2.1)
      = ((pySortDescByVal items).map Prod.snd).map (fun p => p.1) := by
    rw [List.map_map]
    rfl
  have hKperm : List.Perm ((pySortDescByVal items).map (fun e => e.2.1))
      (pyKeys items) := by
    have h1 : List.Perm ((pySortDescByVal items).map (fun e => e.2.1))
        (items.enum.map (fun e => e.2.1)) := hperm.map _
    have h2 : items.enum.map (fun e : Nat × String × Int => e.2.1)
        = pyKeys items := by
      rw [show (fun e : Nat × String × Int => e.2.1)
          = (fun p : String × Int => p.1) ∘ Prod.snd from rfl,
        ← List.map_map, List.enum_map_snd]
      rfl
    rw [h2] at h1
    exact h1
  have hKnodup : ((pySortDescByVal items).map (fun e => e.2.1)).Nodup :=
    hKperm.nodup_iff.mpr hnd
  have hnames : top_lender_names items topN
      = ((pySortDescByVal items).map (fun e => e.2.1)).take topN := by
    rw [top_lender_names, List.map_take, List.map_take, List.map_map]
    rfl
  have hslen : (pySortDescByVal items).length = items.length := by
    rw [pySortDescByVal, List.length_insertionSort, List.enum_length]
  refine ⟨rfl, ?_, ?_, ?_⟩
  · rw [hnames, List.length_take, List.length_map, hslen]
  · rw [hnames]
    exact List.Nodup.sublist (List.take_sublist _ _) hKnodup
  · intro l hl l' hl' hl'n
    rw [hnames, ← List.map_take] at hl hl'n
    obtain ⟨e, he_mem, he_key⟩ := List.mem_map.mp hl
    have hl'K : l' ∈ (pySortDescByVal items).map (fun e => e.2.1) :=
      hKperm.mem_iff.mpr hl'
    obtain ⟨e', he'_mem_s, he'_key⟩ := List.mem_map.mp hl'K
    have he'_drop : e' ∈ (pySortDescByVal items).drop topN := by
      rcases List.mem_append.mp
          ((List.take_append_drop topN (pySortDescByVal items)).symm ▸
            he'_mem_s) with hc | hc
      · exact absurd (he'_key ▸ List.mem_map_of_mem _ hc) hl'n
      · exact hc
    have hrel : rankRel e e' := by
      have hPW : List.Pairwise rankRel
          ((pySortDescByVal items).take topN ++ (pySortDescByVal items).drop topN) := by
        rw [List.take_append_drop]
        exact hsorted
      exact (List.pairwise_append.mp hPW).2.2 e he_mem e' he'_drop
    have he_enum : e ∈ items.enum :=
      hperm.mem_iff.mp ((List.take_sublist _ _).subset he_mem)
    have he'_enum : e' ∈ items.enum := hperm.mem_iff.mp he'_mem_s
    have hgete : items.get? e.1 = some e.2 := by
      rw [List.get?_eq_getElem?]
      rw [List.mem_enum_iff_getElem?] at he_enum
      exact he_enum
    have hgete' : items.get? e'.1 = some e'.2 := by
      rw [List.get?_eq_getElem?]
      rw [List.mem_enum_iff_getElem?] at he'_enum
      exact he'_enum
    have he_items : e.2 ∈ items := by
      obtain ⟨hi, hg⟩ := List.get?_eq_some.mp hgete
      exact hg ▸ items.get_mem _ hi
    have he'_items : e'.2 ∈ items := by
      obtain ⟨hi, hg⟩ := List.get?_eq_some.mp hgete'
      exact hg ▸ items.get_mem _ hi
    have hlook : pyLookup items l = some e.2.2 := by
      apply pyLookup_of_mem_nodup items l e.2.2 hnd
      rw [← he_key]
      simpa using he_items
    have hlook' : pyLookup items l' = some e'.2.2 := by
      apply pyLookup_of_mem_nodup items l' e'.2.2 hnd
      rw [← he'_key]
      simpa using he'_items
    have hidx : (pyKeys items).indexOf l = e.1 := by
      apply indexOf_eq_of_get? _ _ _ hnd
      rw [pyKeys, List.get?_map, hgete, ← he_key]
      rfl
    have hidx' : (pyKeys items).indexOf l' = e'.1 := by
      apply indexOf_eq_of_get? _ _ _ hnd
      rw [pyKeys, List.get?_map, hgete', ← he'_key]
      rfl
    rw [rankRel] at hrel
    rcases hrel with hv | ⟨hveq, hile⟩
    · left
      rw [hlook, hlook']
      simpa using hv
    · right
      refine ⟨by rw [hlook, hlook']; simpa using hveq.symm, ?_⟩
      rw [hidx, hidx']
      rcases Nat.lt_or_ge e.1 e'.1 with hlt | hge
      · exact hlt
      · exfalso
        have heq : e.1 = e'.1 := le_antisymm hile hge
        rw [heq, hgete'] at hgete
        have : e'.2 = e.2 := by
          simpa using hgete
        have hll : l' = l := by
          rw [← he_key, ← he'_key, this]
        exact hl'n (hll ▸ hl)

/-- C9: for every record list and every n, both top-N selections (by loan
count, and by volume when the aggregation succeeds) pick the n lender
identities with the largest metric — ties broken by encounter order, as under
Python's stable sort — and return exactly the full input records whose lender
is among those identities, in input order: a filter by membership, not a
projection to identities. -/
theorem top_lenders_select_and_filter (data : List LoanRec) (topN : Nat) :
    topSelectionSpec data (get_lender_to_num_loans data) topN
      (get_top_lenders_by_num_loans data topN) ∧
    ∀ items out, get_lender_to_volume data = some items →
      get_top_lenders_by_volume data topN = some out →
      topSelectionSpec data items topN out := by
  constructor
  · exact topSelection_correct data _ topN (nodup_pyKeys_numloans data)
  · intro items out hvol hout
    rw [get_top_lenders_by_volume, hvol] at hout
    simp only [Option.map_some', Option.some.injEq] at hout
    rw [← hout]
    exact topSelection_correct data items topN (volume_keys_nodup data items hvol)

/-- Witness for C9 on Scenario A's records with n = 1. -/
theorem top_lenders_select_and_filter_witness :
    topSelectionSpec [recA1, recA2] (get_lender_to_num_loans [recA1, recA2]) 1
      (get_top_lenders_by_num_loans [recA1, recA2] 1) ∧
    topSelectionSpec [recA1, recA2] [("L1", 100), ("L2", 200)] 1 [recA2] :=
  ⟨(top_lenders_select_and_filter [recA1, recA2] 1).1,
   (top_lenders_select_and_filter [recA1, recA2] 1).2 [("L1", 100), ("L2", 200)]
     [recA2] (by decide) (by decide)⟩

/-- `_get_last_12_months` ignores its `today` argument whenever the latest
date is truthy: the `date.today()` fallback sits under `if not latest_date`. -/
theorem last_12_months_today_indep (latest : Option String) (t1 t2 : Nat)
    (h : (truthy latest).isSome = true) :
    _get_last_12_months latest t1 = _get_last_12_months latest t2 := by
  obtain ⟨s, hs⟩ := Option.isSome_iff_exists.mp h
  unfold _get_last_12_months
  rw [hs]

/-- `_create_loan_date_relationships` does not depend on the ambient date
whenever the data carries a truthy (non-empty) latest sale date: the
`date.today()` fallback in `_get_last_12_months` is only reached when the
latest sale date is falsy. -/
theorem cldr_today_indep (data : List LoanRec) (party : Party)
    (nodes : List GNode) (edges : List GEdge) (t1 t2 : Nat)
    (h : (truthy (_get_latest_date data)).isSome = true) :
    _create_loan_date_relationships data party nodes edges t1
      = _create_loan_date_relationships data party nodes edges t2 := by
  unfold _create_loan_date_relationships
  rw [last_12_months_today_indep (_get_latest_date data) t1 t2 h]

/-- C7: The timeline layout builder is deterministic: on equal record lists
and the same party role it returns identical node and edge lists — in
particular the `(id, x)` pairs of all nodes agree, so every party node keeps
its name-seeded x coordinate across runs — and when the data has a latest
sale date that is truthy (non-empty) the output is also independent of the
ambient date (`today` models the `date.today()` fallback, the builder's only
other input). -/
theorem layout_deterministic (d1 d2 : List LoanRec) (party : Party)
    (t t1 t2 : Nat) (h : d1 = d2) :
    (get_timeline_network_graph_nodes_edges d1 party t
        = get_timeline_network_graph_nodes_edges d2 party t) ∧
    ((get_timeline_network_graph_nodes_edges d1 party t).map
          (fun ne => ne.1.map (fun nd => (nd.id, nd.x)))
        = (get_timeline_network_graph_nodes_edges d2 party t).map
          (fun ne => ne.1.map (fun nd => (nd.id, nd.x)))) ∧
    ((truthy (_get_latest_date d1)).isSome = true →
      get_timeline_network_graph_nodes_edges d1 party t1
        = get_timeline_network_graph_nodes_edges d1 party t2) := by
  subst h
  refine ⟨rfl, rfl, fun hd => ?_⟩
  unfold get_timeline_network_graph_nodes_edges
  cases _create_party_loan_relationships d1 party [] [] with
  | none => rfl
  | some ne1 =>
      exact congrArg (fun o => Option.bind o (fun ne2 => some ne2))
        (cldr_today_indep d1 party ne1.1 ne1.2 t1 t2 hd)

/-- Witness for C7 at the one-record dataset `[recD1]`, whose sale date
2025-06-10 makes the latest-date branch live. -/
theorem layout_deterministic_witness :
    ([recD1] : List LoanRec) = [recD1] ∧
    ((get_timeline_network_graph_nodes_edges [recD1] Party.borrower 100
        = get_timeline_network_graph_nodes_edges [recD1] Party.borrower 100) ∧
    ((get_timeline_network_graph_nodes_edges [recD1] Party.borrower 100).map
          (fun ne => ne.1.map (fun nd => (nd.id, nd.x)))
        = (get_timeline_network_graph_nodes_edges [recD1] Party.borrower 100).map
          (fun ne => ne.1.map (fun nd => (nd.id, nd.x)))) ∧
    ((truthy (_get_latest_date [recD1])).isSome = true →
      get_timeline_network_graph_nodes_edges [recD1] Party.borrower 200
        = get_timeline_network_graph_nodes_edges [recD1] Party.borrower 300)) :=
  ⟨rfl, layout_deterministic [recD1] [recD1] Party.borrower 100 200 300 rfl⟩

/-- Sanity: the layout model computes on `[recD1]` — the node list is the B1
party node, the loan node, and twelve month anchors. -/
theorem layout_on_recD1_node_ids :
    (get_timeline_network_graph_nodes_edges [recD1] Party.borrower 100).map
        (fun ne => ne.1.map (fun nd => nd.id))
      = some ["borrower_r1", "loan_r1", "month_1", "month_2", "month_3",
              "month_4", "month_5", "month_6", "month_7", "month_8", "month_9",
              "month_10", "month_11", "month_12"] := by
  decide

/-- C8 counterexample: the one-time spread band width is not non-increasing
in the unique-member count — it grows from 0 at 10 unique members to 50
at 30. -/
theorem spread_band_grows_with_members :
    10 ≤ 30 ∧ ¬(_one_time_spread 30 ≤ _one_time_spread 10) := by
  decide

/-- C8 amended: for unique-member counts m ≤ n, the one-time spread band
width is monotonically non-DEcreasing (it widens as members grow) while the
scaled physics mass is non-increasing, as claimed. -/
theorem spread_up_mass_down (m n : Nat) (h : m ≤ n) :
    _one_time_spread m ≤ _one_time_spread n ∧
    _get_scaled_mass n ≤ _get_scaled_mass m := by
  constructor
  · unfold _one_time_spread
    split_ifs <;> omega
  · unfold _get_scaled_mass
    split_ifs <;> first | omega | norm_num

/-- Witness for C8's amended monotonicity at m = 10, n = 30. -/
theorem spread_up_mass_down_witness :
    10 ≤ 30 ∧ (_one_time_spread 10 ≤ _one_time_spread 30 ∧
      _get_scaled_mass 30 ≤ _get_scaled_mass 10) :=
  ⟨by decide, spread_up_mass_down 10 30 (by decide)⟩
